import Mathlib

/-!
Verification of the streaming relay in `app/api/v1/chat.py`
(`stream_response`, `handle_streaming_error`, `create_chat`) against its
specification.  The Python code is shallowly embedded: JSON values are an
inductive type, the SQLAlchemy `Chat` row is a structure holding the columns
the relay mutates, `json.loads` is an oracle attached to each incoming line,
and every observable effect of a run (chunks yielded to the client, database
commits) is recorded in a trace of actions.
-/

namespace Relay

/-- JSON values, as produced by `json.loads`.  Numbers are modelled as
integers (no claim involves fractional numbers).  Objects keep key order,
mirroring Python dicts; objects returned by `json.loads` have unique keys. -/
inductive Json where
  | null
  | bool (b : Bool)
  | num (n : Int)
  | str (s : String)
  | arr (elems : List Json)
  | obj (fields : List (String × Json))

/-- Python truthiness (`if x:`) of a JSON value. -/
def Json.truthy : Json → Bool
  | .null => false
  | .bool b => b
  | .num n => n != 0
  | .str s => s != ""
  | .arr xs => !xs.isEmpty
  | .obj fs => !fs.isEmpty

/-- Python `d.get(k)` on a parsed-JSON dict (also models `k in d` /
`d[k]`: the key is present iff the result is `some`, and the stored value —
possibly JSON `null` — is returned). -/
def jget (fs : List (String × Json)) (k : String) : Option Json :=
  match fs with
  | [] => none
  | (a, v) :: rest => if a = k then some v else jget rest k

/-- Python `d[k] = v` on a dict modelled as an ordered association list:
an existing key keeps its position and gets the new value, a new key is
appended (CPython insertion-order semantics). -/
def setKey (fs : List (String × Json)) (k : String) (v : Json) : List (String × Json) :=
  match fs with
  | [] => [(k, v)]
  | (a, w) :: rest => if a = k then (a, v) :: rest else (a, w) :: setKey rest k v

/-- `hasPre pat s`: the character list `pat` is a leading block of `s`. -/
def hasPre : List Char → List Char → Bool
  | [], _ => true
  | _ :: _, [] => false
  | p :: ps, c :: cs => p = c && hasPre ps cs

/-- `hasSub pat s`: `pat` occurs contiguously inside `s` — Python's
`pat in s` for strings. -/
def hasSub (pat : List Char) : List Char → Bool
  | [] => pat.isEmpty
  | c :: cs => hasPre pat (c :: cs) || hasSub pat cs

/-- Characters removed by Python `str.strip()` with no argument: the code
points for which `str.isspace()` holds (ASCII whitespace, the C1 separators,
NEL, NBSP and the Unicode space/separator characters). -/
def wsChar (c : Char) : Bool :=
  c = ' ' || c = '\t' || c = '\n' || c = '\r' || c = '\x0b' || c = '\x0c' ||
  c = '\x1c' || c = '\x1d' || c = '\x1e' || c = '\x1f' || c = '\x85' || c = '\xa0' ||
  c = '\u1680' || ('\u2000' ≤ c && c ≤ '\u200a') || c = '\u2028' || c = '\u2029' ||
  c = '\u202f' || c = '\u205f' || c = '\u3000'

/-- Python `s.startswith(pre)`. -/
def chStarts (pre s : String) : Bool := hasPre pre.data s.data

/-- Python `s[n:]` (character-based slice). -/
def chDropN (n : Nat) (s : String) : String := ⟨s.data.drop n⟩

/-- Python `s[:n]`. -/
def chTake (n : Nat) (s : String) : String := ⟨s.data.take n⟩

/-- Python `s.strip()`. -/
def chTrim (s : String) : String :=
  ⟨((s.data.dropWhile wsChar).reverse.dropWhile wsChar).reverse⟩

/-- Python `s.endswith(suf)`. -/
def chEnds (suf s : String) : Bool := hasPre suf.data.reverse s.data.reverse

/-- The columns of the `Chat` row (`app/models/chat.py`) that
`stream_response` reads or writes.  `id`, `user_id`, `session_id`, `prompt`
and the timestamps are never touched by the relay and are omitted.  The model
has **no status column of any kind**.  All mutable columns are modelled as
`Json`, i.e. as the Python value last assigned: SQLAlchemy checks nothing
before the commit, and `response` — normally a string — can receive a
non-string value through the unchecked `done` `full_text` fallback. -/
structure ChatRec where
  response : Json
  phones : Json
  current_params : Json
  button_text : Json
  why_this_phone : Json
  has_more : Json

/-- The row `create_chat` inserts before the stream starts
(`app/api/v1/chat.py`, `db_chat = Chat(...)`): empty response, empty phone
list, empty params dict, default button text, empty explanation list,
`has_more = False`. -/
def createChatRecord : ChatRec :=
  { response := .str ""
    phones := .arr []
    current_params := .obj []
    button_text := .str "See more"
    why_this_phone := .arr []
    has_more := .bool false }

/-- One line received from upstream (`response.aiter_lines()` yields lines
with the newline stripped), together with a `json.loads` oracle: `parsed` is
the result of `json.loads` on the stripped `data:` payload of the line
(`none` models `json.JSONDecodeError`).  The relay consults it only when the
line is a `data:` line with a non-empty stripped payload, exactly where the
source calls `json.loads`. -/
structure InLine where
  raw : String
  parsed : Option Json

/-- The three `db.commit()` call sites of a relay run: the per-event commit
in the `metadata` branch, the commit inside `handle_streaming_error`, and
the final-response commit after the read loop. -/
inductive Site where
  | metadataSite
  | errorNoteSite
  | finalSite

/-- One observable effect of the run: a chunk yielded to the client, or a
`db.commit()` that succeeded (persisting the given row) or raised. -/
inductive Action where
  | fwd (s : String)
  | commitOk (site : Site) (chat : ChatRec)
  | commitFail (site : Site) (msg : String)

/-- Mutable state of one `stream_response` run: the persisted row, the local
`accumulated_text_for_db_response`, and how many `db.commit()` calls have
been made (used by the failure schedule).  The accumulator starts as the
string `""` but is modelled as `Json`: the source's `done` branch has no
`isinstance` check and assigns any truthy `full_text` value to it. -/
structure RelayState where
  chat : ChatRec
  acc : Json
  commits : Nat

/-- Failure schedule for the durable store: `sched n = some msg` makes the
`n`-th `db.commit()` of the run raise an exception whose `str()` is `msg`;
`none` lets it succeed.  A failed commit leaves the persisted row
unchanged. -/
abbrev Sched := Nat → Option String

/-- The schedule on which every durable write succeeds. -/
def okSched : Sched := fun _ => none

/-- `f"Error occurred during streaming: {str(error)}"` from
`handle_streaming_error`. -/
def errNote (e : String) : String := "Error occurred during streaming: " ++ e

/-- The `base_response` value `handle_streaming_error` builds: the current
response, padded with a blank line unless it is empty or already ends in a
newline. -/
def hseBase (r : String) : String :=
  if r ≠ "" && !(chEnds "\n" r || chEnds "\n\n" r) then r ++ "\n\n" else r

/-- The response value after one call of `handle_streaming_error` on a row
whose response is `r`, for error text `e`, ignoring durable-write failures:
the note is appended to the padded base unless it already occurs in it
(Python `error_message not in base_response`), in which case nothing is
written. -/
def hsePure (r e : String) : String :=
  if hasSub (errNote e).data (hseBase r).data then r else hseBase r ++ errNote e

/-- The base string `handle_streaming_error` works on: Python
`base_response = chat.response or ""` yields `""` for a falsy response and
the string itself for a truthy string; for a truthy **non-string** response
the subsequent `base_response.endswith(...)` raises `AttributeError`, which
the function's own `except` swallows — modelled as `none` (no write). -/
def pyRespStr (r : Json) : Option String :=
  if r.truthy then
    match r with
    | .str s => some s
    | _ => none
  else some ""

/-- `handle_streaming_error(db, chat_id, error)` as a state transformer with
trace: queries the row, pads, deduplicates, and commits; its own exceptions
(a non-string truthy response, a failing commit) are swallowed
(`except ... logger.error`). -/
def hseRun (sched : Sched) (st : RelayState) (e : String) : RelayState × List Action :=
  match pyRespStr st.chat.response with
  | none => (st, [])
  | some base0 =>
    if hasSub (errNote e).data (hseBase base0).data then (st, [])
    else
      let staged := { st.chat with response := .str (hseBase base0 ++ errNote e) }
      match sched st.commits with
      | none => ({ st with chat := staged, commits := st.commits + 1 },
                 [.commitOk .errorNoteSite staged])
      | some m => ({ st with commits := st.commits + 1 }, [.commitFail .errorNoteSite m])

/-- `str(AttributeError)` raised by `payload_from_external.get('type')` when
the parsed payload is not a dict.  (Exact CPython wording; `num` is rendered
as `int` — no claim depends on these texts.) -/
def attrErrMsg : Json → String
  | .null => "'NoneType' object has no attribute 'get'"
  | .bool _ => "'bool' object has no attribute 'get'"
  | .num _ => "'int' object has no attribute 'get'"
  | .str _ => "'str' object has no attribute 'get'"
  | .arr _ => "'list' object has no attribute 'get'"
  | .obj _ => ""

/-- `str()` of the `TypeError`s the metadata branch can raise on degenerate
`metadata` values (indexing a string/list with a string key, `in` on a
non-container, item assignment on a non-dict `current_params`).  No claim
depends on these texts. -/
def typeErrStrIdx : String := "string indices must be integers"

def typeErrListIdx : String := "list indices must be integers or slices, not str"

def typeErrIn : String := "argument of type 'int' is not iterable"

def typeErrItemAssign : String := "object does not support item assignment"

/-- `str()` of the `TypeError` raised by `accumulated += chunk` when a
`done` event poisoned the accumulator with a non-string value (representative
CPython wording; no claim depends on it). -/
def typeErrConcat : String := "unsupported operand type(s) for +="

/-- The recognized metadata keys, in the order the source checks them. -/
def metaKeys : List String := ["phones", "current_params", "button_text", "why_this_phone", "has_more"]

/-- The field updates of the `metadata` branch (`if 'phones' in
metadata_content: chat.phones = ...` etc.).  Called only when
`metadata_content` is truthy.  For a dict, each present key overwrites the
corresponding column; `has_more` additionally writes itself into
`current_params` (creating it as `{}` if falsy) before being stored in its
own column.  For a truthy non-dict, the Python membership tests / indexing
either raise `TypeError` (propagated to the caller's generic handler) or
fall through with no update. -/
def applyMetadata (chat : ChatRec) (mc : Json) : Except String ChatRec :=
  match mc with
  | .obj m =>
    let c1 := match jget m "phones" with
              | some v => { chat with phones := v }
              | none => chat
    let c2 := match jget m "current_params" with
              | some v => { c1 with current_params := v }
              | none => c1
    let c3 := match jget m "button_text" with
              | some v => { c2 with button_text := v }
              | none => c2
    let c4 := match jget m "why_this_phone" with
              | some v => { c3 with why_this_phone := v }
              | none => c3
    match jget m "has_more" with
    | some hm =>
      let cp := if c4.current_params.truthy then c4.current_params else Json.obj []
      match cp with
      | .obj fs => .ok { c4 with current_params := .obj (setKey fs "has_more" hm), has_more := hm }
      | _ => .error typeErrItemAssign
    | none => .ok c4
  | .arr xs =>
    if metaKeys.any (fun k => xs.any (fun v => match v with | .str s => s = k | _ => false)) then
      .error typeErrListIdx
    else .ok chat
  | .str s =>
    if metaKeys.any (fun k => hasSub k.data s.data) then .error typeErrStrIdx
    else .ok chat
  | _ => .error typeErrIn

/-- The payload dispatch of `stream_response` (the `try` body after the
original line has been forwarded): classify by `payload.get('type')` and
apply the corresponding database/accumulator effect.  Returns the new state,
the commit actions, and `some msg` when a Python exception escapes to the
`except Exception as e_process` handler.

Source fidelity notes: a non-dict payload raises `AttributeError` at
`.get('type')`; the `content` chunk is appended only when truthy and a
string, and appending to an accumulator that a `done` event poisoned with a
non-string raises `TypeError` (the `+=`); the `done` fallback
(`if full_text_from_done and not accumulated_text_for_db_response`) has no
`isinstance` check, so ANY truthy `full_text` value — string or not — is
assigned to the accumulator when the accumulator is falsy. -/
def processPayload (sched : Sched) (st : RelayState) (payload : Json) :
    RelayState × List Action × Option String :=
  match payload with
  | .obj fs =>
    match jget fs "type" with
    | some (.str t) =>
      if t = "metadata" then
        match jget fs "metadata" with
        | some mc =>
          if mc.truthy then
            match applyMetadata st.chat mc with
            | .ok staged =>
              match sched st.commits with
              | none => ({ st with chat := staged, commits := st.commits + 1 },
                         [.commitOk .metadataSite staged], none)
              | some m => ({ st with commits := st.commits + 1 },
                           [.commitFail .metadataSite m], some m)
            | .error e => (st, [], some e)
          else (st, [], none)
        | none => (st, [], none)
      else if t = "content" then
        match jget fs "content" with
        | some (.str c) =>
          if c ≠ "" then
            match st.acc with
            | .str a => ({ st with acc := .str (a ++ c) }, [], none)
            | _ => (st, [], some typeErrConcat)
          else (st, [], none)
        | _ => (st, [], none)
      else if t = "done" then
        match jget fs "full_text" with
        | some ft =>
          if ft.truthy && !st.acc.truthy then ({ st with acc := ft }, [], none)
          else (st, [], none)
        | none => (st, [], none)
      else (st, [], none)
    | _ => (st, [], none)
  | other => (st, [], some (attrErrMsg other))

/-- One hexadecimal digit, lower case, as emitted by `json.dumps`. -/
def hexDig (n : Nat) : Char :=
  if n < 10 then Char.ofNat ('0'.toNat + n) else Char.ofNat ('a'.toNat + n - 10)

/-- Four-digit `\uXXXX` escape body. -/
def hex4 (n : Nat) : List Char :=
  [hexDig (n / 4096 % 16), hexDig (n / 256 % 16), hexDig (n / 16 % 16), hexDig (n % 16)]

/-- How `json.dumps` (default `ensure_ascii=True`) renders one character
inside a JSON string literal. -/
def escChar (c : Char) : List Char :=
  if c = '"' then ['\\', '"']
  else if c = '\\' then ['\\', '\\']
  else if c = '\n' then ['\\', 'n']
  else if c = '\r' then ['\\', 'r']
  else if c = '\t' then ['\\', 't']
  else if c = '\x08' then ['\\', 'b']
  else if c = '\x0c' then ['\\', 'f']
  else if c.toNat < 0x20 || c.toNat ≥ 0x7f then
    if c.toNat < 0x10000 then '\\' :: 'u' :: hex4 c.toNat
    else
      ('\\' :: 'u' :: hex4 (0xd800 + (c.toNat - 0x10000) / 1024)) ++
      ('\\' :: 'u' :: hex4 (0xdc00 + (c.toNat - 0x10000) % 1024))
  else [c]

/-- `json.dumps` escaping of a whole string value. -/
def jsonEscape (s : String) : String := ⟨s.data.flatMap escChar⟩

/-- `json.dumps({'type': 'error', 'content': msg})` — CPython default
separators and insertion order. -/
def errorEventJson (msg : String) : String :=
  "\x7b\"type\": \"error\", \"content\": \"" ++ jsonEscape msg ++ "\"\x7d"

/-- `f"data: {payload}\n\n"` as yielded for locally synthesized frames. -/
def dataFrameStr (payload : String) : String := "data: " ++ payload ++ "\n\n"

/-- One iteration of the `async for line in response.aiter_lines()` loop of
`stream_response`, as a state transformer returning the actions it emits in
order.  Mirrors the source branch by branch:

* `data:` line, empty stripped payload: forwarded (with the blank-line
  terminator) only when the line is exactly `"data:"`, otherwise skipped;
* `data:` line, payload fails `json.loads`: the original line is **not**
  forwarded — a synthesized `error` frame describing the malformed payload
  is yielded instead, and the loop continues;
* `data:` line, payload parses: the original line is forwarded first
  (byte-identical plus `"\n\n"`), then the payload is processed; if
  processing raises, `handle_streaming_error` runs and a synthesized
  `error` frame is yielded, and the loop continues;
* other non-blank lines are forwarded with a single `"\n"` (comments and
  other SSE fields), blank lines are skipped. -/
def processLine (sched : Sched) (st : RelayState) (l : InLine) : RelayState × List Action :=
  let line := l.raw
  if chStarts "data:" line then
    let payloadStr := chTrim (chDropN 5 line)
    if payloadStr = "" then
      if line = "data:" then (st, [.fwd (line ++ "\n\n")]) else (st, [])
    else
      match l.parsed with
      | none =>
        (st, [.fwd (dataFrameStr (errorEventJson
          ("Malformed data from upstream: " ++ chTake 100 payloadStr ++ "...")))])
      | some payload =>
        match processPayload sched st payload with
        | (st1, acts, none) => (st1, .fwd (line ++ "\n\n") :: acts)
        | (st1, acts, some e) =>
          let p := hseRun sched st1 e
          (p.1, .fwd (line ++ "\n\n") :: (acts ++ p.2 ++
            [.fwd (dataFrameStr (errorEventJson ("Error processing upstream data: " ++ e)))]))
  else if chTrim line ≠ "" && !chStarts ":" line then
    (st, [.fwd (line ++ "\n")])
  else if chStarts ":" (chTrim line) then
    (st, [.fwd (line ++ "\n")])
  else (st, [])

/-- The whole read loop over a finite upstream line sequence that ends
normally. -/
def runLines (sched : Sched) (st : RelayState) : List InLine → RelayState × List Action
  | [] => (st, [])
  | l :: ls =>
    let p := processLine sched st l
    let q := runLines sched p.1 ls
    (q.1, p.2 ++ q.2)

/-- The code after the loop: `if accumulated_text_for_db_response:` write it
to `chat.response` and commit.  A failing final commit propagates to the
run's generic `except Exception as e_outer` handler, which records the error
via `handle_streaming_error` and yields one synthesized `error` frame. -/
def finishRun (sched : Sched) (st : RelayState) : RelayState × List Action :=
  if st.acc.truthy then
    let staged := { st.chat with response := st.acc }
    match sched st.commits with
    | none => ({ st with chat := staged, commits := st.commits + 1 },
               [.commitOk .finalSite staged])
    | some m =>
      let st1 : RelayState := { st with commits := st.commits + 1 }
      let p := hseRun sched st1 m
      (p.1, .commitFail .finalSite m :: (p.2 ++
        [.fwd (dataFrameStr (errorEventJson ("Stream processing error: " ++ m)))]))
  else (st, [])

/-- A complete, normally-ending `stream_response` run: loop over all lines,
then the final commit block.  Returns the final state and the full ordered
trace of forwarded chunks and commit attempts. -/
def streamRun (sched : Sched) (chat0 : ChatRec) (lines : List InLine) :
    RelayState × List Action :=
  let p := runLines sched { chat := chat0, acc := .str "", commits := 0 } lines
  let q := finishRun sched p.1
  (q.1, p.2 ++ q.2)

/-- A well-formed `data:` line: it carries the prefix and its stripped
payload is non-empty (so `json.loads` is attempted). -/
def dataRawOk (raw : String) : Bool :=
  chStarts "data:" raw && chTrim (chDropN 5 raw) != ""

/-- A valid `content` event line with chunk `c`, the wire shape
`{"type": "content", "content": c}`. -/
def contentLine (raw c : String) : InLine :=
  { raw := raw, parsed := some (.obj [("type", .str "content"), ("content", .str c)]) }

/-- A valid `done` event line with full text `t`, the wire shape
`{"type": "done", "full_text": t}`. -/
def doneLine (raw t : String) : InLine :=
  { raw := raw, parsed := some (.obj [("type", .str "done"), ("full_text", .str t)]) }

/-- A valid `metadata` event line carrying the metadata value `m`. -/
def metadataLine (raw : String) (m : Json) : InLine :=
  { raw := raw, parsed := some (.obj [("type", .str "metadata"), ("metadata", m)]) }

/-- A `data:` line whose payload fails `json.loads`. -/
def malformedLine (raw : String) : InLine := { raw := raw, parsed := none }

/-- Is the action a chunk forwarded to the client? -/
def Action.isFwd : Action → Bool
  | .fwd _ => true
  | _ => false

/-- Is the action a durable-write attempt (successful or failed)? -/
def Action.isCommit : Action → Bool
  | .fwd _ => false
  | _ => true

/-- Is the action the final-response write after the read loop? -/
def Action.isFinalWrite : Action → Bool
  | .commitOk .finalSite _ => true
  | .commitFail .finalSite _ => true
  | _ => false

/-- Concatenation of a list of strings in order. -/
def concatAll : List String → String
  | [] => ""
  | c :: cs => c ++ concatAll cs

/-- A JSON value that is a dict or falsy — the shapes of `current_params` on
which the `has_more` sub-update cannot raise. -/
def jsonCpOk (v : Json) : Bool :=
  match v with
  | .obj _ => true
  | v => !v.truthy

/-- The `current_params` column is a dict or falsy.  Holds for the freshly
created row and is preserved by well-shaped metadata events. -/
def cpOk (c : ChatRec) : Bool := jsonCpOk c.current_params

/-- A `metadata` payload value that is processed without raising (given
`cpOk`) : either falsy (skipped) or a dict whose `current_params` entry, if
present, is itself a dict or falsy. -/
def metaOk (m : Json) : Bool :=
  match m with
  | .obj ms =>
    match jget ms "current_params" with
    | none => true
    | some v => jsonCpOk v
  | v => !v.truthy

/-- A parsed dict payload whose processing (under `cpOk`, with successful
durable writes) neither touches the accumulated text nor raises: events that
carry no usable text (`content` with an empty chunk, `done` with a falsy
`full_text` — a truthy `full_text` of ANY type is absorbed into the
accumulator by the source), any `metadata` satisfying `metaOk`, and unknown
types. -/
def tamePayload (fs : List (String × Json)) : Bool :=
  match jget fs "type" with
  | some (.str t) =>
    if t = "metadata" then
      match jget fs "metadata" with
      | some mc => metaOk mc
      | none => true
    else if t = "content" then
      match jget fs "content" with
      | some (.str c) => c = ""
      | _ => true
    else if t = "done" then
      match jget fs "full_text" with
      | some ft => !ft.truthy
      | none => true
    else true
  | _ => true

/-- A line whose processing (under `cpOk`, with successful durable writes)
neither touches the accumulated text nor raises: blank/comment/field lines,
empty-payload or malformed `data:` lines, and `tamePayload` dict events. -/
def tame (l : InLine) : Bool :=
  if chStarts "data:" l.raw then
    if chTrim (chDropN 5 l.raw) = "" then true
    else
      match l.parsed with
      | none => true
      | some (.obj fs) => tamePayload fs
      | some _ => false
  else true

/-- A parsed dict payload whose processing cannot raise and keeps the
accumulator a string (under `cpOk` and a string accumulator): any event
type, with `metaOk` metadata when the type is `metadata`, and a `done`
`full_text` that is a string or falsy (a truthy non-string `full_text`
poisons the accumulator and makes a later content append raise). -/
def validPayload (fs : List (String × Json)) : Bool :=
  match jget fs "type" with
  | some (.str t) =>
    if t = "metadata" then
      match jget fs "metadata" with
      | some mc => metaOk mc
      | none => true
    else if t = "done" then
      match jget fs "full_text" with
      | some (.str _) => true
      | some ft => !ft.truthy
      | none => true
    else true
  | _ => true

/-- A well-formed event line whose processing cannot raise: a `data:` line
with a parseable dict payload satisfying `validPayload`. -/
def validEvt (l : InLine) : Bool :=
  dataRawOk l.raw &&
  match l.parsed with
  | some (.obj fs) => validPayload fs
  | _ => false

/-- The run accumulator is (still) a Python string — true initially and
preserved by every `validPayload` event. -/
def accStrOk : Json → Bool
  | .str _ => true
  | _ => false

/-- `str()` of the `TimeoutError` that `stream_response` synthesizes in its
`except httpx.ReadTimeout` handler, wrapping the transport error text. -/
def timeoutErrText (tmsg : String) : String :=
  "Timeout receiving data from the recommendation service: " ++ tmsg

/-- A run aborted by an upstream read timeout (`except httpx.ReadTimeout` in
`stream_response`): the lines already received are processed, the final
commit block is skipped (the exception escapes the loop), and the handler
records the error note via `handle_streaming_error` and THEN yields one
synthesized `error` frame. -/
def streamRunTimeout (sched : Sched) (chat0 : ChatRec) (lines : List InLine)
    (tmsg : String) : RelayState × List Action :=
  let p := runLines sched { chat := chat0, acc := .str "", commits := 0 } lines
  let q := hseRun sched p.1 (timeoutErrText tmsg)
  (q.1, p.2 ++ q.2 ++ [.fwd (dataFrameStr (errorEventJson (timeoutErrText tmsg)))])

/-- The five recognized metadata fields of the `Chat` row. -/
inductive MetaField where
  | phones
  | current_params
  | button_text
  | why_this_phone
  | has_more

/-- The payload key of a recognized metadata field. -/
def mkey : MetaField → String
  | .phones => "phones"
  | .current_params => "current_params"
  | .button_text => "button_text"
  | .why_this_phone => "why_this_phone"
  | .has_more => "has_more"

/-- Projection of a recognized metadata field out of the row. -/
def fieldOf (c : ChatRec) : MetaField → Json
  | .phones => c.phones
  | .current_params => c.current_params
  | .button_text => c.button_text
  | .why_this_phone => c.why_this_phone
  | .has_more => c.has_more

/-- Greedy (left-to-right, non-overlapping) count of the occurrences of
`pat` in `s`, the sense in which an error note occurs "exactly once" in the
persisted annotation. -/
def countOccur (pat : List Char) : List Char → Nat
  | [] => 0
  | c :: cs =>
    if hasPre pat (c :: cs) then 1 + countOccur pat (List.drop (pat.length - 1) cs)
    else countOccur pat cs
termination_by s => s.length
decreasing_by
  · simp only [List.length_drop, List.length_cons]
    omega
  · simp only [List.length_cons]
    omega

/-- The durable-store schedule on which the first `db.commit()` of the run
raises with message `msg` and all later commits succeed. -/
def failFirst (msg : String) : Sched := fun n => if n = 0 then some msg else none

/-- Canonical (update-free) form of the metadata field updates on a dict,
proved equal to `applyMetadata` below. -/
def applyMetaCore (chat : ChatRec) (m : List (String × Json)) : Except String ChatRec :=
  let c4 : ChatRec :=
    { response := chat.response
      phones := (jget m "phones").getD chat.phones
      current_params := (jget m "current_params").getD chat.current_params
      button_text := (jget m "button_text").getD chat.button_text
      why_this_phone := (jget m "why_this_phone").getD chat.why_this_phone
      has_more := chat.has_more }
  match jget m "has_more" with
  | some hm =>
    match (if c4.current_params.truthy then c4.current_params else Json.obj []) with
    | .obj fs => .ok { c4 with current_params := .obj (setKey fs "has_more" hm), has_more := hm }
    | _ => .error typeErrItemAssign
  | none => .ok c4

/-! ## Per-line unfolding lemmas -/

theorem processLine_content (sched : Sched) (st : RelayState) (raw c a : String)
    (h1 : chStarts "data:" raw = true) (h2 : chTrim (chDropN 5 raw) ≠ "") (hc : c ≠ "")
    (hacc : st.acc = .str a) :
    processLine sched st (contentLine raw c) =
      ({ st with acc := .str (a ++ c) }, [.fwd (raw ++ "\n\n")]) := by
  simp [processLine, contentLine, processPayload, jget, h1, h2, hc, hacc]

theorem processLine_done_sets (sched : Sched) (st : RelayState) (raw t : String)
    (h1 : chStarts "data:" raw = true) (h2 : chTrim (chDropN 5 raw) ≠ "")
    (ht : t ≠ "") (ha : st.acc.truthy = false) :
    processLine sched st (doneLine raw t) =
      ({ st with acc := .str t }, [.fwd (raw ++ "\n\n")]) := by
  have ht' : (Json.str t).truthy = true := by simp [Json.truthy, ht]
  simp [processLine, doneLine, processPayload, jget, h1, h2, ht', ha]

theorem processLine_done_skips (sched : Sched) (st : RelayState) (raw t : String)
    (h1 : chStarts "data:" raw = true) (h2 : chTrim (chDropN 5 raw) ≠ "")
    (ha : st.acc.truthy = true) :
    processLine sched st (doneLine raw t) = (st, [.fwd (raw ++ "\n\n")]) := by
  simp [processLine, doneLine, processPayload, jget, h1, h2, ha]

theorem processLine_malformed (sched : Sched) (st : RelayState) (raw : String)
    (h1 : chStarts "data:" raw = true) (h2 : chTrim (chDropN 5 raw) ≠ "") :
    processLine sched st (malformedLine raw) =
      (st, [.fwd (dataFrameStr (errorEventJson
        ("Malformed data from upstream: " ++ chTake 100 (chTrim (chDropN 5 raw)) ++ "...")))]) := by
  simp [processLine, malformedLine, h1, h2]

theorem processLine_metadata_ok (sched : Sched) (st : RelayState) (raw : String) (m : Json)
    (h1 : chStarts "data:" raw = true) (h2 : chTrim (chDropN 5 raw) ≠ "")
    (hmt : m.truthy = true) (staged : ChatRec) (hap : applyMetadata st.chat m = .ok staged)
    (hs : sched st.commits = none) :
    processLine sched st (metadataLine raw m) =
      ({ st with chat := staged, commits := st.commits + 1 },
       [.fwd (raw ++ "\n\n"), .commitOk .metadataSite staged]) := by
  simp [processLine, metadataLine, processPayload, jget, h1, h2, hmt, hap, hs]

theorem processLine_metadata_falsy (sched : Sched) (st : RelayState) (raw : String) (m : Json)
    (h1 : chStarts "data:" raw = true) (h2 : chTrim (chDropN 5 raw) ≠ "")
    (hmt : m.truthy = false) :
    processLine sched st (metadataLine raw m) = (st, [.fwd (raw ++ "\n\n")]) := by
  simp [processLine, metadataLine, processPayload, jget, h1, h2, hmt]

/-! ## Run lemmas for pure content streams (claim C1) -/

theorem runLines_content (sched : Sched) :
    ∀ (ps : List (String × String)) (st : RelayState) (a : String),
      st.acc = .str a →
      (∀ p ∈ ps, dataRawOk p.1 = true ∧ p.2 ≠ "") →
      runLines sched st (ps.map fun p => contentLine p.1 p.2) =
        ({ st with acc := .str (a ++ concatAll (ps.map Prod.snd)) },
         ps.map fun p => .fwd (p.1 ++ "\n\n"))
  | [], st, a, hacc, _ => by simp [runLines, concatAll, ← hacc]
  | p :: ps, st, a, hacc, h => by
    have hp := h p (by simp)
    have h1 : chStarts "data:" p.1 = true := by
      have := hp.1
      simp [dataRawOk, Bool.and_eq_true] at this
      exact this.1
    have h2 : chTrim (chDropN 5 p.1) ≠ "" := by
      have := hp.1
      simp [dataRawOk, Bool.and_eq_true] at this
      exact this.2
    have ih := runLines_content sched ps { st with acc := .str (a ++ p.2) } (a ++ p.2) rfl
      (fun q hq => h q (by simp [hq]))
    simp only [List.map_cons, runLines,
      processLine_content sched st p.1 p.2 a h1 h2 hp.2 hacc, ih, concatAll]
    simp [String.append_assoc]

theorem concatAll_ne_empty : ∀ (cs : List String), cs ≠ [] → (∀ c ∈ cs, c ≠ "") →
    concatAll cs ≠ ""
  | [], h, _ => absurd rfl h
  | c :: cs, _, h => by
    have hc : c ≠ "" := h c (by simp)
    have : (c ++ concatAll cs).length = c.length + (concatAll cs).length :=
      String.length_append ..
    intro heq
    rw [concatAll] at heq
    have : c.length + (concatAll cs).length = 0 := by rw [← this, heq]; rfl
    have hcl : c.length = 0 := by omega
    exact hc (by cases c with
      | mk data => cases data with
        | nil => rfl
        | cons a l => simp [String.length, List.length] at hcl)

/-- C1: for every upstream stream consisting of valid `content` events with
non-empty string chunks `c₁ … cₙ` (`n ≥ 1`) that ends normally, the text
committed to the persisted record (`Chat.response`) at stream end equals the
concatenation `c₁ ‖ … ‖ cₙ` in arrival order. -/
theorem content_chunks_concat_committed (chat0 : ChatRec) (ps : List (String × String))
    (h : ∀ p ∈ ps, dataRawOk p.1 = true ∧ p.2 ≠ "") (hne : ps ≠ []) :
    (streamRun okSched chat0 (ps.map fun p => contentLine p.1 p.2)).1.chat.response =
      .str (concatAll (ps.map Prod.snd)) := by
  have hrun := runLines_content okSched ps { chat := chat0, acc := .str "", commits := 0 } "" rfl h
  have hacc : concatAll (ps.map Prod.snd) ≠ "" := by
    apply concatAll_ne_empty
    · intro hmap
      exact hne (List.map_eq_nil_iff.mp hmap)
    · intro c hc
      obtain ⟨p, hp, rfl⟩ := List.mem_map.mp hc
      exact (h p hp).2
  simp only [streamRun, hrun]
  simp [finishRun, okSched, Json.truthy, String.empty_append, hacc]

/-- Witness for C1: two chunks `"Try "` and `"the X200."` commit as
`"Try the X200."`. -/
theorem content_chunks_concat_committed_wit :
    (streamRun okSched createChatRecord
      [contentLine "data: \x7b\"type\": \"content\", \"content\": \"Try \"\x7d" "Try ",
       contentLine "data: \x7b\"type\": \"content\", \"content\": \"the X200.\"\x7d" "the X200."]).1.chat.response =
      .str "Try the X200." := by
  have := content_chunks_concat_committed createChatRecord
    [("data: \x7b\"type\": \"content\", \"content\": \"Try \"\x7d", "Try "),
     ("data: \x7b\"type\": \"content\", \"content\": \"the X200.\"\x7d", "the X200.")]
    (by decide) (by decide)
  simpa using this

/-! ## Forwarding fidelity (claim C2) -/

/-- C2 counterexample: the `data:` line `"data: x"` has the non-empty payload
`"x"`, which fails to parse as JSON; the run forwards exactly one chunk — a
locally synthesized `error` frame — and that chunk is not the received line,
so the received line is dropped rather than forwarded byte-identical. -/
theorem malformed_data_line_not_forwarded_cex :
    (streamRun okSched createChatRecord [malformedLine "data: x"]).2 =
      [.fwd "data: \x7b\"type\": \"error\", \"content\": \"Malformed data from upstream: x...\"\x7d\n\n"] ∧
    "data: \x7b\"type\": \"error\", \"content\": \"Malformed data from upstream: x...\"\x7d\n\n" ≠
      "data: x" ++ "\n\n" :=
  ⟨rfl, by decide⟩

theorem processLine_parsed_head (sched : Sched) (st : RelayState) (l : InLine)
    (h1 : chStarts "data:" l.raw = true) (h2 : chTrim (chDropN 5 l.raw) ≠ "")
    (p : Json) (hp : l.parsed = some p) :
    ∃ rest, (processLine sched st l).2 = .fwd (l.raw ++ "\n\n") :: rest := by
  rcases hq : processPayload sched st p with ⟨st1, acts, e⟩
  cases e <;> simp [processLine, h1, h2, hp, hq]

theorem fwd_mem_runLines (sched : Sched) (l : InLine)
    (h1 : chStarts "data:" l.raw = true) (h2 : chTrim (chDropN 5 l.raw) ≠ "")
    (p : Json) (hp : l.parsed = some p) :
    ∀ (lines : List InLine) (st : RelayState), l ∈ lines →
      Action.fwd (l.raw ++ "\n\n") ∈ (runLines sched st lines).2
  | [], _, hl => absurd hl (by simp)
  | x :: xs, st, hl => by
    simp only [runLines, List.mem_append]
    rcases List.mem_cons.mp hl with rfl | hl
    · obtain ⟨rest, hrest⟩ := processLine_parsed_head sched st l h1 h2 p hp
      exact Or.inl (by simp [hrest])
    · exact Or.inr (fwd_mem_runLines sched l h1 h2 p hp xs (processLine sched st x).1 hl)

/-- C2 amended: every `data:` line with a non-empty payload **that parses as
JSON** is forwarded downstream byte-identical (the received line plus the
blank-line terminator, never re-serialized, never dropped) — under any
durable-write schedule.  A `data:` line whose payload fails to parse is NOT
forwarded: it is replaced by a synthesized `error` frame (see the
counterexample). -/
theorem parsed_data_line_forwarded (sched : Sched) (chat0 : ChatRec) (lines : List InLine)
    (l : InLine) (hl : l ∈ lines)
    (h1 : chStarts "data:" l.raw = true) (h2 : chTrim (chDropN 5 l.raw) ≠ "")
    (p : Json) (hp : l.parsed = some p) :
    Action.fwd (l.raw ++ "\n\n") ∈ (streamRun sched chat0 lines).2 := by
  simp only [streamRun, List.mem_append]
  exact Or.inl (fwd_mem_runLines sched l h1 h2 p hp lines _ hl)

/-- Witness for C2 amended: the line `"data: 1"` parses (to the JSON number
`1`, which is not even an object, so processing it raises internally) and is
still forwarded byte-identical. -/
theorem parsed_data_line_forwarded_wit :
    Action.fwd ("data: 1" ++ "\n\n") ∈
      (streamRun okSched createChatRecord [⟨"data: 1", some (.num 1)⟩]).2 :=
  parsed_data_line_forwarded okSched createChatRecord
    [⟨"data: 1", some (.num 1)⟩] ⟨"data: 1", some (.num 1)⟩ (by simp)
    (by decide) (by decide) (.num 1) rfl

/-! ## A malformed frame does not abort the stream (claim C4) -/

theorem append_eq_empty_iff (a b : String) : a ++ b = "" ↔ a = "" ∧ b = "" := by
  constructor
  · intro h
    have hd : (a ++ b).data = ([] : List Char) := by rw [h]
    rw [String.data_append, List.append_eq_nil] at hd
    exact ⟨String.ext hd.1, String.ext hd.2⟩
  · rintro ⟨rfl, rfl⟩
    rfl

/-- C4: a single `data:` line whose non-empty payload is not valid JSON does
not fail the whole stream.  For an upstream sequence `valid content c₁`,
`invalid-JSON data line`, `valid content c₂`, the run emits exactly one
explanatory error-typed frame for the bad line, keeps forwarding, completes
normally, and the committed text contains both chunks (it equals
`c₁ ++ c₂`). -/
theorem malformed_frame_does_not_abort_stream (chat0 : ChatRec)
    (r1 rb r2 c1 c2 : String)
    (h1a : chStarts "data:" r1 = true) (h1b : chTrim (chDropN 5 r1) ≠ "") (hc1 : c1 ≠ "")
    (hba : chStarts "data:" rb = true) (hbb : chTrim (chDropN 5 rb) ≠ "")
    (h2a : chStarts "data:" r2 = true) (h2b : chTrim (chDropN 5 r2) ≠ "") (hc2 : c2 ≠ "") :
    streamRun okSched chat0 [contentLine r1 c1, malformedLine rb, contentLine r2 c2] =
      ({ chat := { chat0 with response := .str (c1 ++ c2) }, acc := .str (c1 ++ c2), commits := 1 },
       [.fwd (r1 ++ "\n\n"),
        .fwd (dataFrameStr (errorEventJson
          ("Malformed data from upstream: " ++ chTake 100 (chTrim (chDropN 5 rb)) ++ "..."))),
        .fwd (r2 ++ "\n\n"),
        .commitOk .finalSite { chat0 with response := .str (c1 ++ c2) }]) := by
  have hacc : c1 ++ c2 ≠ "" := by
    intro h
    exact hc1 ((append_eq_empty_iff c1 c2).mp h).1
  simp [streamRun, runLines, finishRun, okSched, Json.truthy,
    processLine_content, processLine_malformed, h1a, h1b, hc1, hba, hbb, h2a, h2b, hc2, hacc,
    String.empty_append]

/-- Witness for C4 at concrete lines: `content "A"`, the invalid line
`"data: nope"`, `content "B"` commit `"AB"`. -/
theorem malformed_frame_does_not_abort_stream_wit :
    streamRun okSched createChatRecord
      [contentLine "data: \x7b\"type\": \"content\", \"content\": \"A\"\x7d" "A",
       malformedLine "data: nope",
       contentLine "data: \x7b\"type\": \"content\", \"content\": \"B\"\x7d" "B"] =
      ({ chat := { createChatRecord with response := .str "AB" }, acc := .str "AB", commits := 1 },
       [.fwd ("data: \x7b\"type\": \"content\", \"content\": \"A\"\x7d" ++ "\n\n"),
        .fwd (dataFrameStr (errorEventJson ("Malformed data from upstream: " ++
          chTake 100 (chTrim (chDropN 5 "data: nope")) ++ "..."))),
        .fwd ("data: \x7b\"type\": \"content\", \"content\": \"B\"\x7d" ++ "\n\n"),
        .commitOk .finalSite { createChatRecord with response := .str "AB" }]) := by
  have := malformed_frame_does_not_abort_stream createChatRecord
    "data: \x7b\"type\": \"content\", \"content\": \"A\"\x7d" "data: nope"
    "data: \x7b\"type\": \"content\", \"content\": \"B\"\x7d" "A" "B"
    (by decide) (by decide) (by decide) (by decide) (by decide)
    (by decide) (by decide) (by decide)
  simpa using this

/-! ## Metadata application, canonical form and preservation lemmas -/

theorem applyMetadata_obj_eq (chat : ChatRec) (m : List (String × Json)) :
    applyMetadata chat (.obj m) = applyMetaCore chat m := by
  cases h1 : jget m "phones" <;> cases h2 : jget m "current_params" <;>
  cases h3 : jget m "button_text" <;> cases h4 : jget m "why_this_phone" <;>
  simp [applyMetadata, applyMetaCore, h1, h2, h3, h4]

theorem applyMetadata_ok_response (chat : ChatRec) (mc : Json) (staged : ChatRec)
    (h : applyMetadata chat mc = .ok staged) : staged.response = chat.response := by
  cases mc with
  | obj m =>
    rw [applyMetadata_obj_eq] at h
    simp only [applyMetaCore] at h
    split at h
    · split at h
      · cases h; rfl
      · cases h
    · cases h; rfl
  | arr xs =>
    simp only [applyMetadata] at h
    split at h
    · cases h
    · cases h; rfl
  | str s =>
    simp only [applyMetadata] at h
    split at h
    · cases h
    · cases h; rfl
  | null => cases h
  | bool b => cases h
  | num n => cases h

theorem ifCp_obj (v : Json) (h : jsonCpOk v = true) :
    ∃ fs, (if v.truthy then v else Json.obj []) = .obj fs := by
  cases v with
  | obj fs =>
    cases htr : (Json.obj fs).truthy
    · exact ⟨[], by simp [htr]⟩
    · exact ⟨fs, by simp [htr]⟩
  | null => exact ⟨[], by simp [Json.truthy]⟩
  | bool b => simp [jsonCpOk] at h; exact ⟨[], by simp [h]⟩
  | num n => simp [jsonCpOk] at h; exact ⟨[], by simp [h]⟩
  | str s => simp [jsonCpOk] at h; exact ⟨[], by simp [h]⟩
  | arr xs => simp [jsonCpOk] at h; exact ⟨[], by simp [h]⟩

theorem applyMetadata_metaOk_ok (chat : ChatRec) (m : List (String × Json))
    (hm : metaOk (.obj m) = true) (hcp : cpOk chat = true) :
    ∃ staged, applyMetadata chat (.obj m) = .ok staged ∧ cpOk staged = true ∧
      staged.response = chat.response := by
  rw [applyMetadata_obj_eq]
  simp only [applyMetaCore]
  have hc4 : jsonCpOk ((jget m "current_params").getD chat.current_params) = true := by
    cases hcpv : jget m "current_params" with
    | none => simpa [Option.getD] using hcp
    | some v =>
      simp only [metaOk, hcpv] at hm
      simpa [Option.getD] using hm
  cases hhm : jget m "has_more" with
  | none => exact ⟨_, rfl, by simpa [cpOk] using hc4, rfl⟩
  | some hmv =>
    obtain ⟨fs, hfs⟩ := ifCp_obj _ hc4
    simp only at hfs ⊢
    rw [hfs]
    exact ⟨_, rfl, by simp [cpOk, jsonCpOk], rfl⟩

/-! ## Tame lines: state preservation, no final write (claims C5, C10) -/

theorem processPayload_tame (st : RelayState) (fs : List (String × Json))
    (hcp : cpOk st.chat = true) (ht : tamePayload fs = true) :
    (processPayload okSched st (.obj fs)).2.2 = none ∧
    (processPayload okSched st (.obj fs)).1.acc = st.acc ∧
    (processPayload okSched st (.obj fs)).1.chat.response = st.chat.response ∧
    cpOk (processPayload okSched st (.obj fs)).1.chat = true := by
  cases htype : jget fs "type" with
  | none => simp [processPayload, htype, hcp]
  | some v =>
    cases v with
    | str t =>
      by_cases hmd : t = "metadata"
      · subst hmd
        cases hmc : jget fs "metadata" with
        | none => simp [processPayload, htype, hmc, hcp]
        | some mc =>
          cases hmt : mc.truthy with
          | false => simp [processPayload, htype, hmc, hmt, hcp]
          | true =>
            have hmOk : metaOk mc = true := by
              simp only [tamePayload, htype, hmc] at ht
              simpa using ht
            cases mc with
            | obj ms =>
              obtain ⟨staged, hap, hcps, hresp⟩ := applyMetadata_metaOk_ok st.chat ms hmOk hcp
              simp [processPayload, htype, hmc, hmt, hap, okSched, hcps, hresp]
            | null => simp [Json.truthy] at hmt
            | bool b => simp_all [metaOk, Json.truthy]
            | num n => simp_all [metaOk, Json.truthy]
            | str s => simp_all [metaOk, Json.truthy]
            | arr xs => simp_all [metaOk, Json.truthy]
      · by_cases hct : t = "content"
        · subst hct
          cases hc : jget fs "content" with
          | none => simp [processPayload, htype, hc, hcp]
          | some cv =>
            cases cv with
            | str c =>
              have hce : c = "" := by
                simp only [tamePayload, htype, hc] at ht
                simpa using ht
              simp [processPayload, htype, hc, hce, hcp]
            | null => simp [processPayload, htype, hc, hcp]
            | bool b => simp [processPayload, htype, hc, hcp]
            | num n => simp [processPayload, htype, hc, hcp]
            | arr xs => simp [processPayload, htype, hc, hcp]
            | obj o => simp [processPayload, htype, hc, hcp]
        · by_cases hdn : t = "done"
          · subst hdn
            cases hd : jget fs "full_text" with
            | none => simp [processPayload, htype, hd, hcp]
            | some dv =>
              have hft : dv.truthy = false := by
                simp only [tamePayload, htype, hd] at ht
                simpa using ht
              simp [processPayload, htype, hd, hft, hcp]
          · simp [processPayload, htype, hmd, hct, hdn, hcp]
    | null => simp [processPayload, htype, hcp]
    | bool b => simp [processPayload, htype, hcp]
    | num n => simp [processPayload, htype, hcp]
    | arr xs => simp [processPayload, htype, hcp]
    | obj o => simp [processPayload, htype, hcp]

theorem processLine_parsed_eq (sched : Sched) (st : RelayState) (raw : String) (p : Json)
    (st1 : RelayState) (acts : List Action)
    (h1 : chStarts "data:" raw = true) (h2 : chTrim (chDropN 5 raw) ≠ "")
    (hq : processPayload sched st p = (st1, acts, none)) :
    processLine sched st ⟨raw, some p⟩ = (st1, .fwd (raw ++ "\n\n") :: acts) := by
  simp [processLine, h1, h2, hq]

theorem processLine_raise_eq (sched : Sched) (st : RelayState) (raw : String) (p : Json)
    (st1 : RelayState) (acts : List Action) (e : String)
    (h1 : chStarts "data:" raw = true) (h2 : chTrim (chDropN 5 raw) ≠ "")
    (hq : processPayload sched st p = (st1, acts, some e)) :
    processLine sched st ⟨raw, some p⟩ =
      ((hseRun sched st1 e).1, .fwd (raw ++ "\n\n") :: (acts ++ (hseRun sched st1 e).2 ++
        [.fwd (dataFrameStr (errorEventJson ("Error processing upstream data: " ++ e)))])) := by
  simp [processLine, h1, h2, hq]

theorem processLine_nondata_fst (sched : Sched) (st : RelayState) (l : InLine)
    (h : chStarts "data:" l.raw = false) :
    (processLine sched st l).1 = st := by
  simp only [processLine, h, Bool.false_eq_true, if_false]
  split
  · rfl
  · split
    · rfl
    · rfl

theorem processLine_emptypay_fst (sched : Sched) (st : RelayState) (l : InLine)
    (h1 : chStarts "data:" l.raw = true) (hps : chTrim (chDropN 5 l.raw) = "") :
    (processLine sched st l).1 = st := by
  simp only [processLine, h1]
  simp only [if_true]
  rw [if_pos hps]
  split
  · rfl
  · rfl

theorem tame_step (st : RelayState) (l : InLine) (ht : tame l = true)
    (hcp : cpOk st.chat = true) :
    (processLine okSched st l).1.acc = st.acc ∧
    (processLine okSched st l).1.chat.response = st.chat.response ∧
    cpOk (processLine okSched st l).1.chat = true := by
  obtain ⟨raw, parsed⟩ := l
  by_cases hstart : chStarts "data:" raw = true
  · by_cases hps : chTrim (chDropN 5 raw) = ""
    · rw [processLine_emptypay_fst okSched st ⟨raw, parsed⟩ hstart hps]
      exact ⟨rfl, rfl, hcp⟩
    · cases hp : parsed with
      | none =>
        rw [show (⟨raw, none⟩ : InLine) = malformedLine raw from rfl,
          processLine_malformed okSched st raw hstart hps]
        exact ⟨rfl, rfl, hcp⟩
      | some p =>
        cases p with
        | obj fs =>
          have htp : tamePayload fs = true := by
            rw [hp] at ht
            simp only [tame, hstart, if_true] at ht
            rw [if_neg hps] at ht
            simpa using ht
          obtain ⟨hnone, hacc, hresp, hcp2⟩ := processPayload_tame st fs hcp htp
          rcases hq : processPayload okSched st (.obj fs) with ⟨st1, acts, e⟩
          rw [hq] at hnone hacc hresp hcp2
          simp only at hnone hacc hresp hcp2
          subst hnone
          rw [processLine_parsed_eq okSched st raw (.obj fs) st1 acts hstart hps hq]
          exact ⟨hacc, hresp, hcp2⟩
        | null =>
          rw [hp] at ht
          simp only [tame, hstart, if_true] at ht
          rw [if_neg hps] at ht
          simp at ht
        | bool b =>
          rw [hp] at ht
          simp only [tame, hstart, if_true] at ht
          rw [if_neg hps] at ht
          simp at ht
        | num n =>
          rw [hp] at ht
          simp only [tame, hstart, if_true] at ht
          rw [if_neg hps] at ht
          simp at ht
        | str s =>
          rw [hp] at ht
          simp only [tame, hstart, if_true] at ht
          rw [if_neg hps] at ht
          simp at ht
        | arr xs =>
          rw [hp] at ht
          simp only [tame, hstart, if_true] at ht
          rw [if_neg hps] at ht
          simp at ht
  · have hstart2 : chStarts "data:" raw = false := by simpa using hstart
    rw [processLine_nondata_fst okSched st ⟨raw, parsed⟩ hstart2]
    exact ⟨rfl, rfl, hcp⟩

theorem isFwd_finalWrite (a : Action) (h : a.isFwd = true) : a.isFinalWrite = false := by
  cases a <;> simp_all [Action.isFwd, Action.isFinalWrite]

theorem hseRun_no_finalWrite (sched : Sched) (st : RelayState) (e : String) :
    ∀ a ∈ (hseRun sched st e).2, a.isFinalWrite = false := by
  unfold hseRun
  repeat' split
  all_goals simp [Action.isFinalWrite]

theorem processPayload_no_finalWrite (sched : Sched) (st : RelayState) (p : Json) :
    ∀ a ∈ (processPayload sched st p).2.1, a.isFinalWrite = false := by
  unfold processPayload
  repeat' split
  all_goals simp [Action.isFinalWrite]

theorem processLine_nondata_snd_fwd (sched : Sched) (st : RelayState) (l : InLine)
    (h : chStarts "data:" l.raw = false) :
    ∀ a ∈ (processLine sched st l).2, a.isFwd = true := by
  simp only [processLine, h, Bool.false_eq_true, if_false]
  split
  · simp [Action.isFwd]
  · split
    · simp [Action.isFwd]
    · simp

theorem processLine_emptypay_snd_fwd (sched : Sched) (st : RelayState) (l : InLine)
    (h1 : chStarts "data:" l.raw = true) (hps : chTrim (chDropN 5 l.raw) = "") :
    ∀ a ∈ (processLine sched st l).2, a.isFwd = true := by
  simp only [processLine, h1, if_true]
  rw [if_pos hps]
  split
  · simp [Action.isFwd]
  · simp

theorem processLine_no_finalWrite (sched : Sched) (st : RelayState) (l : InLine) :
    ∀ a ∈ (processLine sched st l).2, a.isFinalWrite = false := by
  obtain ⟨raw, parsed⟩ := l
  by_cases h1 : chStarts "data:" raw = true
  · by_cases hps : chTrim (chDropN 5 raw) = ""
    · intro a ha
      exact isFwd_finalWrite a (processLine_emptypay_snd_fwd sched st ⟨raw, parsed⟩ h1 hps a ha)
    · cases hp : parsed with
      | none =>
        rw [show (⟨raw, none⟩ : InLine) = malformedLine raw from rfl,
          processLine_malformed sched st raw h1 hps]
        simp [Action.isFinalWrite]
      | some p =>
        rcases hq : processPayload sched st p with ⟨st1, acts, e⟩
        have hpp := processPayload_no_finalWrite sched st p
        rw [hq] at hpp
        simp only at hpp
        cases e with
        | none =>
          rw [processLine_parsed_eq sched st raw p st1 acts h1 hps hq]
          intro a ha
          rcases List.mem_cons.mp ha with rfl | ha2
          · simp [Action.isFinalWrite]
          · exact hpp a ha2
        | some err =>
          rw [processLine_raise_eq sched st raw p st1 acts err h1 hps hq]
          intro a ha
          rcases List.mem_cons.mp ha with rfl | ha2
          · simp [Action.isFinalWrite]
          · rcases List.mem_append.mp ha2 with ha3 | ha4
            · rcases List.mem_append.mp ha3 with ha5 | ha6
              · exact hpp a ha5
              · exact hseRun_no_finalWrite sched st1 err a ha6
            · simp only [List.mem_singleton] at ha4
              subst ha4
              simp [Action.isFinalWrite]
  · intro a ha
    have h1f : chStarts "data:" raw = false := by simpa using h1
    exact isFwd_finalWrite a (processLine_nondata_snd_fwd sched st ⟨raw, parsed⟩ h1f a ha)

theorem runLines_no_finalWrite (sched : Sched) :
    ∀ (lines : List InLine) (st : RelayState),
      ∀ a ∈ (runLines sched st lines).2, a.isFinalWrite = false
  | [], _, a, ha => by simp [runLines] at ha
  | l :: ls, st, a, ha => by
    simp only [runLines] at ha
    rcases List.mem_append.mp ha with h | h
    · exact processLine_no_finalWrite sched st l a h
    · exact runLines_no_finalWrite sched ls (processLine sched st l).1 a h

theorem tame_run :
    ∀ (lines : List InLine) (st : RelayState),
      (∀ l ∈ lines, tame l = true) → cpOk st.chat = true →
      (runLines okSched st lines).1.acc = st.acc ∧
      (runLines okSched st lines).1.chat.response = st.chat.response ∧
      cpOk (runLines okSched st lines).1.chat = true
  | [], st, _, hcp => ⟨rfl, rfl, hcp⟩
  | l :: ls, st, h, hcp => by
    have hstep := tame_step st l (h l (by simp)) hcp
    have ih := tame_run ls (processLine okSched st l).1
      (fun x hx => h x (by simp [hx])) hstep.2.2
    simp only [runLines]
    exact ⟨by rw [ih.1, hstep.1], by rw [ih.2.1, hstep.2.1], ih.2.2⟩

theorem runLines_append (sched : Sched) :
    ∀ (xs ys : List InLine) (st : RelayState),
      runLines sched st (xs ++ ys) =
        ((runLines sched (runLines sched st xs).1 ys).1,
         (runLines sched st xs).2 ++ (runLines sched (runLines sched st xs).1 ys).2)
  | [], ys, st => by simp [runLines]
  | x :: xs, ys, st => by
    have ih := runLines_append sched xs ys (processLine sched st x).1
    simp only [List.cons_append, runLines, List.append_eq]
    rw [ih]
    simp [List.append_assoc]

/-- C10: if a normally-ending upstream stream contains no usable text — no
non-empty string `content` chunk and no non-empty `done` `full_text` (for
example a stream of only metadata events) — the final database write is
skipped entirely and the record's `response` stays exactly the empty string
written at chat creation. -/
theorem no_text_no_final_write (lines : List InLine) (h : ∀ l ∈ lines, tame l = true) :
    (streamRun okSched createChatRecord lines).1.chat.response = .str "" ∧
    ∀ a ∈ (streamRun okSched createChatRecord lines).2, a.isFinalWrite = false := by
  have hrun := tame_run lines { chat := createChatRecord, acc := .str "", commits := 0 } h rfl
  constructor
  · simp only [streamRun, finishRun]
    rw [if_neg (by simp [hrun.1, Json.truthy])]
    exact hrun.2.1
  · intro a ha
    simp only [streamRun] at ha
    rcases List.mem_append.mp ha with h1 | h2
    · exact runLines_no_finalWrite okSched lines _ a h1
    · rw [finishRun, hrun.1] at h2
      simp [Json.truthy] at h2

theorem finishRun_commits (st : RelayState) (a : String) (hacc : st.acc = .str a)
    (h : a ≠ "") : (finishRun okSched st).1.chat.response = .str a := by
  simp [finishRun, okSched, hacc, Json.truthy, h]

/-- C5: if zero usable `content` chunks occur during a normally-ending
stream but a `done` event supplies a non-empty string `full_text = T`, the
text committed to the persisted record at stream end equals `T` (fallback,
not merge).  The other lines of the stream may be any `tame` lines (metadata
events, comments, keep-alives, …). -/
theorem done_full_text_fallback (chat0 : ChatRec) (hcp : cpOk chat0 = true)
    (pre post : List InLine) (rawd T : String)
    (hpre : ∀ l ∈ pre, tame l = true) (hpost : ∀ l ∈ post, tame l = true)
    (h1 : chStarts "data:" rawd = true) (h2 : chTrim (chDropN 5 rawd) ≠ "") (hT : T ≠ "") :
    (streamRun okSched chat0 (pre ++ doneLine rawd T :: post)).1.chat.response = .str T := by
  have hinit := tame_run pre { chat := chat0, acc := .str "", commits := 0 } hpre hcp
  have hatf : (runLines okSched { chat := chat0, acc := .str "", commits := 0 } pre).1.acc.truthy
      = false := by simp [hinit.1, Json.truthy]
  have hd := processLine_done_sets okSched
    (runLines okSched { chat := chat0, acc := .str "", commits := 0 } pre).1 rawd T h1 h2 hT hatf
  have hpost2 := tame_run post
    { (runLines okSched { chat := chat0, acc := .str "", commits := 0 } pre).1 with acc := .str T }
    hpost hinit.2.2
  have hXacc : (runLines okSched
      { (runLines okSched { chat := chat0, acc := .str "", commits := 0 } pre).1 with
        acc := .str T } post).1.acc = .str T := hpost2.1
  simp only [streamRun, runLines_append okSched pre (doneLine rawd T :: post), runLines]
  rw [hd]
  dsimp only
  exact finishRun_commits _ T hXacc hT

/-- Witness for C5: a metadata event, then `done` with `full_text = "hello"`,
commits `"hello"`. -/
theorem done_full_text_fallback_wit :
    (streamRun okSched createChatRecord
      [metadataLine "data: \x7b\"type\": \"metadata\", \"metadata\": \x7b\"has_more\": false\x7d\x7d"
        (.obj [("has_more", .bool false)]),
       doneLine "data: \x7b\"type\": \"done\", \"full_text\": \"hello\"\x7d" "hello"]).1.chat.response =
      .str "hello" := by
  have := done_full_text_fallback createChatRecord (by decide)
    [metadataLine "data: \x7b\"type\": \"metadata\", \"metadata\": \x7b\"has_more\": false\x7d\x7d"
      (.obj [("has_more", .bool false)])]
    [] "data: \x7b\"type\": \"done\", \"full_text\": \"hello\"\x7d" "hello"
    (by decide) (by decide) (by decide) (by decide) (by decide)
  simpa using this

/-- Witness for C10: a stream of one metadata event leaves `response` empty
and performs no final write. -/
theorem no_text_no_final_write_wit :
    (streamRun okSched createChatRecord
      [metadataLine "data: \x7b\"type\": \"metadata\", \"metadata\": \x7b\"phones\": [\"A\"]\x7d\x7d"
        (.obj [("phones", .arr [.str "A"])])]).1.chat.response = .str "" ∧
    ∀ a ∈ (streamRun okSched createChatRecord
      [metadataLine "data: \x7b\"type\": \"metadata\", \"metadata\": \x7b\"phones\": [\"A\"]\x7d\x7d"
        (.obj [("phones", .arr [.str "A"])])]).2, a.isFinalWrite = false :=
  no_text_no_final_write _ (by decide)

/-! ## No commit before the first forwarded frame (claim C3) -/

theorem all_fwd_shape (tr : List Action) (h : ∀ a ∈ tr, a.isFwd = true) :
    tr = [] ∨ ∃ s rest, tr = .fwd s :: rest := by
  cases tr with
  | nil => exact Or.inl rfl
  | cons a rest =>
    have ha := h a (by simp)
    cases a with
    | fwd s => exact Or.inr ⟨s, rest, rfl⟩
    | commitOk site c => simp [Action.isFwd] at ha
    | commitFail site m => simp [Action.isFwd] at ha

theorem processLine_head_fwd (sched : Sched) (st : RelayState) (l : InLine) :
    (processLine sched st l).2 = [] ∨
    ∃ s rest, (processLine sched st l).2 = .fwd s :: rest := by
  obtain ⟨raw, parsed⟩ := l
  by_cases h1 : chStarts "data:" raw = true
  · by_cases hps : chTrim (chDropN 5 raw) = ""
    · exact all_fwd_shape _ (processLine_emptypay_snd_fwd sched st ⟨raw, parsed⟩ h1 hps)
    · cases hp : parsed with
      | none =>
        rw [show (⟨raw, none⟩ : InLine) = malformedLine raw from rfl,
          processLine_malformed sched st raw h1 hps]
        exact Or.inr ⟨_, [], rfl⟩
      | some p =>
        obtain ⟨rest, hr⟩ := processLine_parsed_head sched st ⟨raw, some p⟩ h1 hps p rfl
        exact Or.inr ⟨_, rest, hr⟩
  · have h1f : chStarts "data:" raw = false := by simpa using h1
    exact all_fwd_shape _ (processLine_nondata_snd_fwd sched st ⟨raw, parsed⟩ h1f)

theorem processLine_nil_state (sched : Sched) (st : RelayState) (l : InLine)
    (h : (processLine sched st l).2 = []) : (processLine sched st l).1 = st := by
  obtain ⟨raw, parsed⟩ := l
  by_cases h1 : chStarts "data:" raw = true
  · by_cases hps : chTrim (chDropN 5 raw) = ""
    · exact processLine_emptypay_fst sched st ⟨raw, parsed⟩ h1 hps
    · cases hp : parsed with
      | none =>
        rw [show (⟨raw, none⟩ : InLine) = malformedLine raw from rfl,
          processLine_malformed sched st raw h1 hps]
      | some p =>
        obtain ⟨rest, hr⟩ := processLine_parsed_head sched st ⟨raw, some p⟩ h1 hps p rfl
        rw [hp] at h
        rw [hr] at h
        cases h
  · have h1f : chStarts "data:" raw = false := by simpa using h1
    exact processLine_nondata_fst sched st ⟨raw, parsed⟩ h1f

theorem runLines_head_fwd (sched : Sched) :
    ∀ (lines : List InLine) (st : RelayState),
      ((runLines sched st lines).2 = [] ∧ (runLines sched st lines).1 = st) ∨
      ∃ s rest, (runLines sched st lines).2 = .fwd s :: rest
  | [], st => Or.inl ⟨rfl, rfl⟩
  | l :: ls, st => by
    simp only [runLines]
    rcases processLine_head_fwd sched st l with hnil | ⟨s, rest, hr⟩
    · have hst := processLine_nil_state sched st l hnil
      rw [hnil, hst]
      simp only [List.nil_append]
      exact runLines_head_fwd sched ls st
    · rw [hr]
      exact Or.inr ⟨s, rest ++ (runLines sched (processLine sched st l).1 ls).2, by simp⟩

/-- In a normally-ending run (any schedule, any lines), every durable-write
attempt in the trace is preceded by at least one already-forwarded chunk. -/
theorem commit_preceded_by_forward (sched : Sched) (chat0 : ChatRec) (lines : List InLine)
    (pre post : List Action) (a : Action)
    (h : (streamRun sched chat0 lines).2 = pre ++ a :: post)
    (ha : a.isCommit = true) : ∃ f ∈ pre, f.isFwd = true := by
  rcases runLines_head_fwd sched lines { chat := chat0, acc := .str "", commits := 0 } with
    ⟨hnil, hst⟩ | ⟨s, rest, hr⟩
  · simp only [streamRun, hnil, hst, List.nil_append] at h
    rw [finishRun, if_neg (by simp [Json.truthy])] at h
    simp at h
  · simp only [streamRun, hr, List.cons_append] at h
    cases pre with
    | nil =>
      simp only [List.nil_append] at h
      injection h with h1 h2
      rw [← h1] at ha
      simp [Action.isCommit] at ha
    | cons f pre2 =>
      injection h with h1 h2
      exact ⟨f, by simp, by rw [← h1]; rfl⟩

theorem errNote_not_empty (e : String) : ((errNote e).data).isEmpty = false := by
  have h1 : "Error occurred during streaming: ".data ≠ [] := by decide
  rw [errNote, String.data_append]
  cases hc : "Error occurred during streaming: ".data with
  | nil => exact absurd hc h1
  | cons c cs => simp

/-- `handle_streaming_error` on a row whose response is still the empty
string written at creation: the dedup check fails, the note is staged and
committed. -/
theorem hseRun_fresh (st : RelayState) (e : String) (hr : st.chat.response = .str "")
    (hs : okSched st.commits = none) :
    hseRun okSched st e =
      ({ st with
         chat := { st.chat with response := .str (errNote e) },
         commits := st.commits + 1 },
       [.commitOk .errorNoteSite { st.chat with response := .str (errNote e) }]) := by
  have hsub : hasSub (errNote e).data [] = false := by
    simp [hasSub, errNote_not_empty e]
  simp [hseRun, pyRespStr, hr, Json.truthy, hsub, hs, hseBase]

/-- C3 counterexample: the persisted `Chat` row has no status column, and in
a normally-ending run no durable write at all happens before the first frame
is forwarded.  For a stream of one valid `content` event the whole trace is:
first the forwarded frame, then the single final-response commit — so the
record cannot have been "set to `streaming` before any frame is forwarded",
and the run ends with no terminal-status write either (the only write is the
response text). -/
theorem no_status_write_before_forward_cex :
    (streamRun okSched createChatRecord
      [contentLine "data: \x7b\"type\": \"content\", \"content\": \"hi\"\x7d" "hi"]).2 =
      [.fwd ("data: \x7b\"type\": \"content\", \"content\": \"hi\"\x7d" ++ "\n\n"),
       .commitOk .finalSite { createChatRecord with response := .str "hi" }] ∧
    Action.isCommit
      (.fwd ("data: \x7b\"type\": \"content\", \"content\": \"hi\"\x7d" ++ "\n\n")) = false :=
  ⟨rfl, rfl⟩

/-- C3 amended: the persisted `Chat` row carries no status field and the
relay performs no status transitions; in a **normally-ending** run every
durable write in the emitted trace is preceded by an already-forwarded
frame, while in a run **aborted by an upstream read timeout** the
error-note write runs ahead of the client: on a fresh row the abort trace
is exactly the error-note commit followed by the lone synthesized error
frame. -/
theorem no_status_column_commit_timing
    (sched : Sched) (chat0 : ChatRec) (lines : List InLine)
    (pre post : List Action) (a : Action)
    (h : (streamRun sched chat0 lines).2 = pre ++ a :: post) (ha : a.isCommit = true)
    (c0 : ChatRec) (hr : c0.response = .str "") (tmsg : String) :
    (∃ f ∈ pre, f.isFwd = true) ∧
    (streamRunTimeout okSched c0 [] tmsg).2 =
      [.commitOk .errorNoteSite { c0 with response := .str (errNote (timeoutErrText tmsg)) },
       .fwd (dataFrameStr (errorEventJson (timeoutErrText tmsg)))] := by
  refine ⟨commit_preceded_by_forward sched chat0 lines pre post a h ha, ?_⟩
  simp only [streamRunTimeout, runLines]
  rw [hseRun_fresh { chat := c0, acc := .str "", commits := 0 } (timeoutErrText tmsg) hr rfl]
  simp

/-- Witness for C3 amended: in the one-metadata-event normally-ending run
the durable write is preceded by the forwarded frame, and the zero-line
timeout-aborted run on a fresh row commits the note before its only frame. -/
theorem no_status_column_commit_timing_wit :
    (∃ f ∈ [Action.fwd ("data: \x7b\"type\": \"metadata\", \"metadata\": \x7b\"phones\": [\"A\"]\x7d\x7d" ++ "\n\n")],
      f.isFwd = true) ∧
    (streamRunTimeout okSched createChatRecord [] "read timed out").2 =
      [.commitOk .errorNoteSite
         { createChatRecord with
           response := .str (errNote (timeoutErrText "read timed out")) },
       .fwd (dataFrameStr (errorEventJson (timeoutErrText "read timed out")))] :=
  no_status_column_commit_timing okSched createChatRecord
    [metadataLine "data: \x7b\"type\": \"metadata\", \"metadata\": \x7b\"phones\": [\"A\"]\x7d\x7d"
      (.obj [("phones", .arr [.str "A"])])]
    [Action.fwd ("data: \x7b\"type\": \"metadata\", \"metadata\": \x7b\"phones\": [\"A\"]\x7d\x7d" ++ "\n\n")]
    []
    (.commitOk .metadataSite { createChatRecord with phones := .arr [.str "A"] })
    rfl rfl createChatRecord rfl "read timed out"

/-! ## Frame order and mutation-after-forward (claim C9) -/

theorem accStrOk_str (j : Json) (h : accStrOk j = true) : ∃ a, j = .str a := by
  cases j with
  | str a => exact ⟨a, rfl⟩
  | null => simp [accStrOk] at h
  | bool b => simp [accStrOk] at h
  | num n => simp [accStrOk] at h
  | arr xs => simp [accStrOk] at h
  | obj fs => simp [accStrOk] at h

theorem processPayload_validEvt (st : RelayState) (fs : List (String × Json))
    (hcp : cpOk st.chat = true) (hsa : accStrOk st.acc = true) (ht : validPayload fs = true) :
    ∃ st1 acts, processPayload okSched st (.obj fs) = (st1, acts, none) ∧
      (∀ a ∈ acts, a.isCommit = true) ∧ cpOk st1.chat = true ∧ accStrOk st1.acc = true := by
  cases htype : jget fs "type" with
  | none => exact ⟨st, [], by simp [processPayload, htype], by simp, hcp, hsa⟩
  | some v =>
    cases v with
    | str t =>
      by_cases hmd : t = "metadata"
      · subst hmd
        cases hmc : jget fs "metadata" with
        | none => exact ⟨st, [], by simp [processPayload, htype, hmc], by simp, hcp, hsa⟩
        | some mc =>
          cases hmt : mc.truthy with
          | false =>
            exact ⟨st, [], by simp [processPayload, htype, hmc, hmt], by simp, hcp, hsa⟩
          | true =>
            have hmOk : metaOk mc = true := by
              simp only [validPayload, htype, hmc] at ht
              simpa using ht
            cases mc with
            | obj ms =>
              obtain ⟨staged, hap, hcps, hresp⟩ := applyMetadata_metaOk_ok st.chat ms hmOk hcp
              refine ⟨{ st with chat := staged, commits := st.commits + 1 },
                [.commitOk .metadataSite staged],
                by simp [processPayload, htype, hmc, hmt, hap, okSched], ?_, hcps, hsa⟩
              intro a ha
              simp only [List.mem_singleton] at ha
              subst ha
              rfl
            | null => simp [Json.truthy] at hmt
            | bool b => simp_all [metaOk, Json.truthy]
            | num n => simp_all [metaOk, Json.truthy]
            | str s => simp_all [metaOk, Json.truthy]
            | arr xs => simp_all [metaOk, Json.truthy]
      · by_cases hct : t = "content"
        · subst hct
          cases hc : jget fs "content" with
          | none => exact ⟨st, [], by simp [processPayload, htype, hc], by simp, hcp, hsa⟩
          | some cv =>
            cases cv with
            | str c =>
              by_cases hce : c = ""
              · exact ⟨st, [], by simp [processPayload, htype, hc, hce], by simp, hcp, hsa⟩
              · obtain ⟨a, ha⟩ := accStrOk_str st.acc hsa
                exact ⟨{ st with acc := .str (a ++ c) }, [],
                  by simp [processPayload, htype, hc, hce, ha], by simp, hcp, rfl⟩
            | null => exact ⟨st, [], by simp [processPayload, htype, hc], by simp, hcp, hsa⟩
            | bool b => exact ⟨st, [], by simp [processPayload, htype, hc], by simp, hcp, hsa⟩
            | num n => exact ⟨st, [], by simp [processPayload, htype, hc], by simp, hcp, hsa⟩
            | arr xs => exact ⟨st, [], by simp [processPayload, htype, hc], by simp, hcp, hsa⟩
            | obj o => exact ⟨st, [], by simp [processPayload, htype, hc], by simp, hcp, hsa⟩
        · by_cases hdn : t = "done"
          · subst hdn
            cases hd : jget fs "full_text" with
            | none => exact ⟨st, [], by simp [processPayload, htype, hd], by simp, hcp, hsa⟩
            | some dv =>
              cases dv with
              | str ft =>
                by_cases hft : ft = ""
                · exact ⟨st, [],
                    by simp [processPayload, htype, hd, hft, Json.truthy], by simp, hcp, hsa⟩
                · have hft' : (Json.str ft).truthy = true := by simp [Json.truthy, hft]
                  cases hat : st.acc.truthy with
                  | false =>
                    exact ⟨{ st with acc := .str ft }, [],
                      by simp [processPayload, htype, hd, hft', hat],
                      by simp, hcp, rfl⟩
                  | true =>
                    exact ⟨st, [],
                      by simp [processPayload, htype, hd, hat], by simp, hcp, hsa⟩
              | null =>
                exact ⟨st, [],
                  by simp [processPayload, htype, hd, Json.truthy], by simp, hcp, hsa⟩
              | bool b =>
                have hft : (Json.bool b).truthy = false := by
                  simp only [validPayload, htype, hd] at ht
                  simpa using ht
                exact ⟨st, [], by simp [processPayload, htype, hd, hft], by simp, hcp, hsa⟩
              | num n =>
                have hft : (Json.num n).truthy = false := by
                  simp only [validPayload, htype, hd] at ht
                  simpa using ht
                exact ⟨st, [], by simp [processPayload, htype, hd, hft], by simp, hcp, hsa⟩
              | arr xs =>
                have hft : (Json.arr xs).truthy = false := by
                  simp only [validPayload, htype, hd] at ht
                  simpa using ht
                exact ⟨st, [], by simp [processPayload, htype, hd, hft], by simp, hcp, hsa⟩
              | obj o =>
                have hft : (Json.obj o).truthy = false := by
                  simp only [validPayload, htype, hd] at ht
                  simpa using ht
                exact ⟨st, [], by simp [processPayload, htype, hd, hft], by simp, hcp, hsa⟩
          · exact ⟨st, [], by simp [processPayload, htype, hmd, hct, hdn], by simp, hcp, hsa⟩
    | null => exact ⟨st, [], by simp [processPayload, htype], by simp, hcp, hsa⟩
    | bool b => exact ⟨st, [], by simp [processPayload, htype], by simp, hcp, hsa⟩
    | num n => exact ⟨st, [], by simp [processPayload, htype], by simp, hcp, hsa⟩
    | arr xs => exact ⟨st, [], by simp [processPayload, htype], by simp, hcp, hsa⟩
    | obj o => exact ⟨st, [], by simp [processPayload, htype], by simp, hcp, hsa⟩

theorem isCommit_not_fwd (a : Action) (h : a.isCommit = true) : a.isFwd = false := by
  cases a <;> simp_all [Action.isCommit, Action.isFwd]

theorem isFwd_fwd (s : String) : (Action.fwd s).isFwd = true := rfl

theorem validEvt_step (st : RelayState) (l : InLine)
    (hv : validEvt l = true) (hcp : cpOk st.chat = true) (hsa : accStrOk st.acc = true) :
    ∃ rest, (processLine okSched st l).2 = .fwd (l.raw ++ "\n\n") :: rest ∧
      (∀ a ∈ rest, a.isCommit = true) ∧ cpOk (processLine okSched st l).1.chat = true ∧
      accStrOk (processLine okSched st l).1.acc = true := by
  obtain ⟨raw, parsed⟩ := l
  simp only [validEvt, Bool.and_eq_true] at hv
  have h1 : chStarts "data:" raw = true := by
    have := hv.1
    simp [dataRawOk, Bool.and_eq_true] at this
    exact this.1
  have h2 : chTrim (chDropN 5 raw) ≠ "" := by
    have := hv.1
    simp [dataRawOk, Bool.and_eq_true] at this
    exact this.2
  cases hp : parsed with
  | none => rw [hp] at hv; simp at hv
  | some p =>
    rw [hp] at hv
    cases p with
    | obj fs =>
      have hvp : validPayload fs = true := by simpa using hv.2
      obtain ⟨st1, acts, hq, hacts, hcp1, hsa1⟩ := processPayload_validEvt st fs hcp hsa hvp
      rw [processLine_parsed_eq okSched st raw (.obj fs) st1 acts h1 h2 hq]
      exact ⟨acts, rfl, hacts, hcp1, hsa1⟩
    | null => simp at hv
    | bool b => simp at hv
    | num n => simp at hv
    | str s => simp at hv
    | arr xs => simp at hv

theorem runLines_validEvt_filter :
    ∀ (lines : List InLine) (st : RelayState),
      (∀ l ∈ lines, validEvt l = true) → cpOk st.chat = true → accStrOk st.acc = true →
      (runLines okSched st lines).2.filter (fun a => a.isFwd) =
        lines.map (fun l => .fwd (l.raw ++ "\n\n")) ∧
      cpOk (runLines okSched st lines).1.chat = true ∧
      accStrOk (runLines okSched st lines).1.acc = true
  | [], st, _, hcp, hsa => ⟨rfl, hcp, hsa⟩
  | l :: ls, st, h, hcp, hsa => by
    obtain ⟨rest, hr, hacts, hcp1, hsa1⟩ := validEvt_step st l (h l (by simp)) hcp hsa
    have ih := runLines_validEvt_filter ls (processLine okSched st l).1
      (fun x hx => h x (by simp [hx])) hcp1 hsa1
    simp only [runLines, List.filter_append, hr, List.map_cons]
    refine ⟨?_, ih.2⟩
    have hrest : rest.filter (fun a => a.isFwd) = [] :=
      List.filter_eq_nil_iff.mpr fun a ha => by simp [isCommit_not_fwd a (hacts a ha)]
    simp [List.filter_cons, hrest, ih.1, isFwd_fwd]

theorem finishRun_okSched_no_fwd (st : RelayState) :
    ∀ a ∈ (finishRun okSched st).2, a.isCommit = true := by
  intro a ha
  simp only [finishRun, okSched] at ha
  split at ha
  · simp only [List.mem_singleton] at ha
    subst ha
    rfl
  · simp at ha

/-- C9 amended: (a) frames are forwarded downstream in exactly the order
their lines were received (for a stream of well-formed event lines and a
healthy store, the forwarded chunks are precisely the received lines, in
order, each with its terminator); (b) for each `metadata`/`content` event
the corresponding frame is forwarded FIRST and every persisted-state
mutation from that event comes after it in the emitted sequence — the code
yields the frame before touching the database, so persisted state runs
behind the client, not ahead of it. -/
theorem frames_in_order_mutation_after_forward (chat0 : ChatRec) (lines : List InLine)
    (hcp : cpOk chat0 = true) (h : ∀ l ∈ lines, validEvt l = true) :
    (streamRun okSched chat0 lines).2.filter (fun a => a.isFwd) =
      lines.map (fun l => .fwd (l.raw ++ "\n\n")) ∧
    ∀ (st : RelayState) (l : InLine), validEvt l = true → cpOk st.chat = true →
      accStrOk st.acc = true →
      ∃ rest, (processLine okSched st l).2 = .fwd (l.raw ++ "\n\n") :: rest ∧
        ∀ a ∈ rest, a.isCommit = true := by
  constructor
  · have hrun := runLines_validEvt_filter lines
      { chat := chat0, acc := .str "", commits := 0 } h hcp rfl
    simp only [streamRun, List.filter_append, hrun.1]
    have hfin : (finishRun okSched
        (runLines okSched { chat := chat0, acc := .str "", commits := 0 } lines).1).2.filter
          (fun a => a.isFwd) = [] :=
      List.filter_eq_nil_iff.mpr fun a ha => by
        simp [isCommit_not_fwd a (finishRun_okSched_no_fwd _ a ha)]
    rw [hfin, List.append_nil]
  · intro st l hv hcp2 hsa2
    obtain ⟨rest, hr, hacts, _⟩ := validEvt_step st l hv hcp2 hsa2
    exact ⟨rest, hr, hacts⟩

/-- C9 counterexample: for a single valid `metadata` event the emitted
sequence is the forwarded frame FIRST and the database write second, so the
persisted-state mutation is not applied before the frame is forwarded (the
code yields the original line and only then updates the row). -/
theorem mutation_after_forward_cex :
    (streamRun okSched createChatRecord
      [metadataLine "data: \x7b\"type\": \"metadata\", \"metadata\": \x7b\"phones\": [\"A\"]\x7d\x7d"
        (.obj [("phones", .arr [.str "A"])])]).2 =
      [.fwd ("data: \x7b\"type\": \"metadata\", \"metadata\": \x7b\"phones\": [\"A\"]\x7d\x7d" ++ "\n\n"),
       .commitOk .metadataSite { createChatRecord with phones := .arr [.str "A"] }] ∧
    Action.isFwd
      (.fwd ("data: \x7b\"type\": \"metadata\", \"metadata\": \x7b\"phones\": [\"A\"]\x7d\x7d" ++ "\n\n")) = true ∧
    Action.isCommit
      (.commitOk .metadataSite { createChatRecord with phones := .arr [.str "A"] }) = true :=
  ⟨rfl, rfl, rfl⟩

/-- Witness for C9 amended: one valid `content` event forwards exactly its
own line. -/
theorem frames_in_order_mutation_after_forward_wit :
    (streamRun okSched createChatRecord
      [contentLine "data: \x7b\"type\": \"content\", \"content\": \"x\"\x7d" "x"]).2.filter
        (fun a => a.isFwd) =
      [.fwd ("data: \x7b\"type\": \"content\", \"content\": \"x\"\x7d" ++ "\n\n")] := by
  have := (frames_in_order_mutation_after_forward createChatRecord
    [contentLine "data: \x7b\"type\": \"content\", \"content\": \"x\"\x7d" "x"]
    (by decide) (by decide)).1
  simpa using this

/-! ## Metadata field semantics (claim C6) -/

theorem setKey_isEmpty (fs : List (String × Json)) (k : String) (v : Json) :
    (setKey fs k v).isEmpty = false := by
  cases fs with
  | nil => rfl
  | cons p rest =>
    obtain ⟨a, w⟩ := p
    simp only [setKey]
    split <;> rfl

theorem applyMetadata_has_more (chat : ChatRec) (hcp : cpOk chat = true) (v : Json) :
    ∃ c, applyMetadata chat (.obj [("has_more", v)]) = .ok c ∧
      c.has_more = v ∧ cpOk c = true := by
  rw [applyMetadata_obj_eq]
  obtain ⟨fs, hfs⟩ := ifCp_obj chat.current_params hcp
  simp only [applyMetaCore, jget]
  simp only [Option.getD]
  simp
  rw [hfs]
  exact ⟨_, rfl, rfl, by simp [cpOk, jsonCpOk]⟩

/-- C6 counterexample: a metadata event carrying only `has_more` (and NOT
carrying `current_params`) changes the persisted `current_params` too: the
`has_more` value is injected into it.  So a recognized field absent from a
metadata event does not always retain its prior value. -/
theorem has_more_mutates_current_params_cex :
    applyMetadata { createChatRecord with current_params := .obj [("x", .num 1)] }
        (.obj [("has_more", .bool true)]) =
      .ok { createChatRecord with
            current_params := .obj [("x", .num 1), ("has_more", .bool true)],
            has_more := .bool true } ∧
    jget [("has_more", Json.bool true)] "current_params" = none ∧
    Json.obj [("x", .num 1), ("has_more", .bool true)] ≠ Json.obj [("x", .num 1)] := by
  refine ⟨rfl, rfl, ?_⟩
  intro h
  injection h with h2
  simp at h2

/-- C6 amended: for metadata events with dict payloads, (a) last-write-wins:
applying the same recognized field twice with different values leaves the
persisted field holding the later value only; (b) every recognized field
absent from a given metadata event retains its prior persisted value —
EXCEPT `current_params`, which additionally absorbs a `has_more` key
whenever the event carries `has_more` (created as an empty dict first if it
was falsy). -/
theorem metadata_lww_and_absent_preserved (chat : ChatRec) (hcp : cpOk chat = true) :
    (∀ (f : MetaField) (v1 v2 : Json),
      ∃ c1 c2, applyMetadata chat (.obj [(mkey f, v1)]) = .ok c1 ∧
        applyMetadata c1 (.obj [(mkey f, v2)]) = .ok c2 ∧ fieldOf c2 f = v2) ∧
    (∀ (ms : List (String × Json)) (f : MetaField) (c1 : ChatRec),
      applyMetadata chat (.obj ms) = .ok c1 →
      jget ms (mkey f) = none →
      (f = .current_params → jget ms "has_more" = none) →
      fieldOf c1 f = fieldOf chat f) := by
  constructor
  · intro f v1 v2
    cases f with
    | phones =>
      refine ⟨{ chat with phones := v1 }, { chat with phones := v2 }, ?_, ?_, rfl⟩
      · rw [applyMetadata_obj_eq]
        simp [applyMetaCore, jget, mkey]
      · rw [applyMetadata_obj_eq]
        simp [applyMetaCore, jget, mkey]
    | current_params =>
      refine ⟨{ chat with current_params := v1 }, { chat with current_params := v2 }, ?_, ?_, rfl⟩
      · rw [applyMetadata_obj_eq]
        simp [applyMetaCore, jget, mkey]
      · rw [applyMetadata_obj_eq]
        simp [applyMetaCore, jget, mkey]
    | button_text =>
      refine ⟨{ chat with button_text := v1 }, { chat with button_text := v2 }, ?_, ?_, rfl⟩
      · rw [applyMetadata_obj_eq]
        simp [applyMetaCore, jget, mkey]
      · rw [applyMetadata_obj_eq]
        simp [applyMetaCore, jget, mkey]
    | why_this_phone =>
      refine ⟨{ chat with why_this_phone := v1 }, { chat with why_this_phone := v2 }, ?_, ?_, rfl⟩
      · rw [applyMetadata_obj_eq]
        simp [applyMetaCore, jget, mkey]
      · rw [applyMetadata_obj_eq]
        simp [applyMetaCore, jget, mkey]
    | has_more =>
      obtain ⟨c1, e1, hh1, hcp1⟩ := applyMetadata_has_more chat hcp v1
      obtain ⟨c2, e2, hh2, hcp2⟩ := applyMetadata_has_more c1 hcp1 v2
      exact ⟨c1, c2, e1, e2, hh2⟩
  · intro ms f c1 h habs hcpcon
    rw [applyMetadata_obj_eq] at h
    simp only [applyMetaCore] at h
    cases hhm : jget ms "has_more" with
    | none =>
      simp only [hhm] at h
      injection h with h2
      subst h2
      cases f with
      | phones => simp [mkey] at habs; simp [fieldOf, habs]
      | current_params => simp [mkey] at habs; simp [fieldOf, habs]
      | button_text => simp [mkey] at habs; simp [fieldOf, habs]
      | why_this_phone => simp [mkey] at habs; simp [fieldOf, habs]
      | has_more => simp [fieldOf]
    | some hm =>
      simp only [hhm] at h
      split at h
      · injection h with h2
        subst h2
        cases f with
        | phones => simp [mkey] at habs; simp [fieldOf, habs]
        | button_text => simp [mkey] at habs; simp [fieldOf, habs]
        | why_this_phone => simp [mkey] at habs; simp [fieldOf, habs]
        | current_params =>
          rw [hcpcon rfl] at hhm
          cases hhm
        | has_more =>
          simp [mkey] at habs
          rw [habs] at hhm
          cases hhm
      · cases h

/-- Witness for C6 amended: last-write-wins for `phones` on the freshly
created row. -/
theorem metadata_lww_and_absent_preserved_wit :
    ∃ c1 c2, applyMetadata createChatRecord (.obj [(mkey .phones, .num 1)]) = .ok c1 ∧
      applyMetadata c1 (.obj [(mkey .phones, .num 2)]) = .ok c2 ∧
      fieldOf c2 .phones = .num 2 :=
  (metadata_lww_and_absent_preserved createChatRecord (by decide)).1 .phones (.num 1) (.num 2)

/-! ## Idempotent failure recording (claim C7) -/

theorem hasPre_length : ∀ {pat s : List Char}, hasPre pat s = true → pat.length ≤ s.length
  | [], s, _ => by simp
  | p :: ps, [], h => by simp [hasPre] at h
  | p :: ps, c :: cs, h => by
    simp only [hasPre, Bool.and_eq_true] at h
    have := @hasPre_length ps cs h.2
    simp only [List.length_cons]
    omega

theorem hasPre_refl : ∀ (l : List Char), hasPre l l = true
  | [] => rfl
  | c :: cs => by simp [hasPre, hasPre_refl cs]

theorem hasPre_extend : ∀ {pat s : List Char} (y : List Char),
    hasPre pat s = true → hasPre pat (s ++ y) = true
  | [], s, y, _ => rfl
  | p :: ps, [], y, h => by simp [hasPre] at h
  | p :: ps, c :: cs, y, h => by
    simp only [hasPre, Bool.and_eq_true] at h
    simp only [List.cons_append, hasPre, Bool.and_eq_true]
    exact ⟨h.1, hasPre_extend y h.2⟩

theorem hasPre_append_left : ∀ {pat x : List Char} (y : List Char),
    pat.length ≤ x.length → hasPre pat (x ++ y) = true → hasPre pat x = true
  | [], x, y, _, _ => rfl
  | p :: ps, [], y, hlen, h => by simp at hlen
  | p :: ps, c :: cs, y, hlen, h => by
    simp only [List.cons_append, hasPre, Bool.and_eq_true] at h
    simp only [hasPre, Bool.and_eq_true]
    exact ⟨h.1, hasPre_append_left y (by simpa using hlen) h.2⟩

theorem countOccur_zero_of_short : ∀ {pat s : List Char}, s.length < pat.length →
    countOccur pat s = 0
  | pat, [], _ => by simp [countOccur]
  | pat, c :: cs, h => by
    rw [countOccur]
    rw [if_neg]
    · exact countOccur_zero_of_short (by simp at h ⊢; omega)
    · intro hpre
      have := hasPre_length hpre
      omega

theorem hasSub_suffix : ∀ (x pat : List Char), hasSub pat (x ++ pat) = true
  | [], pat => by
    cases pat with
    | nil => rfl
    | cons p ps => simp [hasSub, hasPre_refl]
  | c :: x, pat => by
    simp [hasSub, hasSub_suffix x pat]

theorem hasSub_extend : ∀ {x : List Char} (y : List Char) {pat : List Char},
    hasSub pat x = true → hasSub pat (x ++ y) = true
  | [], y, pat, h => by
    simp [hasSub, List.isEmpty_iff] at h
    subst h
    cases y with
    | nil => rfl
    | cons c cs => simp [hasSub, hasPre]
  | c :: cs, y, pat, h => by
    simp only [hasSub, Bool.or_eq_true] at h
    simp only [List.cons_append, hasSub, Bool.or_eq_true]
    rcases h with h | h
    · exact Or.inl (by simpa [List.cons_append] using hasPre_extend y h)
    · exact Or.inr (hasSub_extend y h)

theorem countOccur_append_self : ∀ (padR pat : List Char), pat ≠ [] →
    hasSub pat padR = false → countOccur pat (padR ++ pat) = 1
  | [], pat, hne, _ => by
    cases pat with
    | nil => exact absurd rfl hne
    | cons p ps =>
      simp only [List.nil_append]
      rw [countOccur, if_pos (hasPre_refl (p :: ps))]
      have hd : (p :: ps).length - 1 = ps.length := by simp
      rw [hd, List.drop_length]
      simp [countOccur]
  | c :: pr, pat, hne, hsub => by
    have hsub2 : hasPre pat (c :: pr) = false ∧ hasSub pat pr = false := by
      simpa [hasSub] using hsub
    simp only [List.cons_append]
    by_cases hpre : hasPre pat (c :: (pr ++ pat)) = true
    · have hlen : (c :: pr).length < pat.length := by
        by_contra hle
        push_neg at hle
        have : hasPre pat (c :: pr) = true :=
          hasPre_append_left pat hle (by simpa using hpre)
        rw [this] at hsub2
        exact absurd hsub2.1 (by simp)
      rw [countOccur, if_pos hpre]
      have hplen : 1 ≤ pat.length := by
        cases pat with
        | nil => exact absurd rfl hne
        | cons q qs => simp
      have hdrop : (List.drop (pat.length - 1) (pr ++ pat)).length < pat.length := by
        simp only [List.length_drop, List.length_append]
        simp only [List.length_cons] at hlen
        omega
      rw [countOccur_zero_of_short hdrop]
    · rw [countOccur, if_neg hpre]
      exact countOccur_append_self pr pat hne hsub2.2

theorem errNote_data_ne (e : String) : (errNote e).data ≠ [] := by
  rw [errNote, String.data_append]
  intro hcontra
  have := List.append_eq_nil.mp hcontra
  exact absurd this.1 (by decide)

theorem hasSub_hseBase (pat : List Char) (r : String) (hr : hasSub pat r.data = true) :
    hasSub pat (hseBase r).data = true := by
  rw [hseBase]
  split
  · rw [String.data_append]
    exact hasSub_extend _ hr
  · exact hr

/-- C7: failure recording is idempotent.  If the note for error text `e` is
not yet in the (padded) response, then after recording it once: recording
the same error again changes nothing; the note occurs exactly once in the
persisted annotation; and a second, different note `e2` is a no-op when it
is already a substring, and is appended exactly when it is not. -/
theorem error_note_idempotent (resp e e2 : String)
    (h : hasSub (errNote e).data (hseBase resp).data = false) :
    hsePure (hsePure resp e) e = hsePure resp e ∧
    countOccur (errNote e).data (hsePure resp e).data = 1 ∧
    (hasSub (errNote e2).data (hsePure resp e).data = true →
      hsePure (hsePure resp e) e2 = hsePure resp e) ∧
    (hasSub (errNote e2).data (hseBase (hsePure resp e)).data = false →
      hsePure (hsePure resp e) e2 = hseBase (hsePure resp e) ++ errNote e2) := by
  have h1 : hsePure resp e = hseBase resp ++ errNote e := by
    rw [hsePure, if_neg (by simp [h])]
  have hsubsuf : hasSub (errNote e).data (hsePure resp e).data = true := by
    rw [h1, String.data_append]
    exact hasSub_suffix _ _
  refine ⟨?_, ?_, ?_, ?_⟩
  · rw [hsePure, if_pos (hasSub_hseBase _ _ hsubsuf)]
  · rw [h1, String.data_append]
    exact countOccur_append_self _ _ (errNote_data_ne e) h
  · intro hin
    rw [hsePure, if_pos (hasSub_hseBase _ _ hin)]
  · intro hne
    rw [hsePure, if_neg (by simp [hne])]

/-- Witness for C7 at a concrete failure: recording `"boom"` twice on an
empty response keeps exactly one copy of the note. -/
theorem error_note_idempotent_wit :
    hasSub (errNote "boom").data (hseBase "").data = false ∧
    (hsePure (hsePure "" "boom") "boom" = hsePure "" "boom" ∧
     countOccur (errNote "boom").data (hsePure "" "boom").data = 1 ∧
     (hasSub (errNote "x").data (hsePure "" "boom").data = true →
       hsePure (hsePure "" "boom") "x" = hsePure "" "boom") ∧
     (hasSub (errNote "x").data (hseBase (hsePure "" "boom")).data = false →
       hsePure (hsePure "" "boom") "x" = hseBase (hsePure "" "boom") ++ errNote "x")) :=
  ⟨by decide, error_note_idempotent "" "boom" "x" (by decide)⟩

/-! ## Persistence faults are surfaced and the loop continues (claim C8) -/

theorem hasSub_errNote_nil (msg : String) : hasSub (errNote msg).data [] = false := by
  cases hd : (errNote msg).data with
  | nil => exact absurd hd (errNote_data_ne msg)
  | cons a l => simp [hasSub]

/-- C8 amended, part 1 (behaviour under a failing event write): if the
durable write of a `metadata` event fails, the relay records an error note,
emits an explanatory `error`-typed frame TO THE CLIENT (contrary to the
claim), and continues reading: a following `content` event is still
accumulated and committed normally. -/
theorem persistence_fault_surfaces_and_continues (chat0 : ChatRec)
    (hresp : chat0.response = .str "") (msg rawm rawc c : String)
    (h1 : chStarts "data:" rawm = true) (h2 : chTrim (chDropN 5 rawm) ≠ "")
    (h3 : chStarts "data:" rawc = true) (h4 : chTrim (chDropN 5 rawc) ≠ "") (hc : c ≠ "") :
    streamRun (failFirst msg) chat0
        [metadataLine rawm (.obj [("phones", .arr [.str "A"])]), contentLine rawc c] =
      ({ chat := { chat0 with response := .str c }, acc := .str c, commits := 3 },
       [.fwd (rawm ++ "\n\n"),
        .commitFail .metadataSite msg,
        .commitOk .errorNoteSite { chat0 with response := .str (errNote msg) },
        .fwd (dataFrameStr (errorEventJson ("Error processing upstream data: " ++ msg))),
        .fwd (rawc ++ "\n\n"),
        .commitOk .finalSite { chat0 with response := .str c }]) := by
  have hap : applyMetadata chat0 (.obj [("phones", Json.arr [.str "A"])]) =
      .ok { chat0 with phones := .arr [.str "A"] } := by
    rw [applyMetadata_obj_eq]
    simp [applyMetaCore, jget]
  have hpp : processPayload (failFirst msg) ⟨chat0, .str "", 0⟩
      (.obj [("type", Json.str "metadata"),
             ("metadata", Json.obj [("phones", Json.arr [.str "A"])])]) =
      (⟨chat0, .str "", 1⟩, [.commitFail .metadataSite msg], some msg) := by
    simp [processPayload, jget, Json.truthy, hap, failFirst]
  have hni : hasSub (errNote msg).data [] = false := hasSub_errNote_nil msg
  have hse : hseRun (failFirst msg) ⟨chat0, .str "", 1⟩ msg =
      (⟨{ chat0 with response := .str (errNote msg) }, .str "", 2⟩,
       [.commitOk .errorNoteSite { chat0 with response := .str (errNote msg) }]) := by
    simp [hseRun, pyRespStr, hresp, Json.truthy, hseBase, hni, failFirst]
  have hpl1 : processLine (failFirst msg) ⟨chat0, .str "", 0⟩
      (metadataLine rawm (.obj [("phones", .arr [.str "A"])])) =
      (⟨{ chat0 with response := .str (errNote msg) }, .str "", 2⟩,
       [.fwd (rawm ++ "\n\n"), .commitFail .metadataSite msg,
        .commitOk .errorNoteSite { chat0 with response := .str (errNote msg) },
        .fwd (dataFrameStr (errorEventJson ("Error processing upstream data: " ++ msg)))]) := by
    have hq := processLine_raise_eq (failFirst msg) ⟨chat0, .str "", 0⟩ rawm
      (.obj [("type", Json.str "metadata"),
             ("metadata", Json.obj [("phones", Json.arr [.str "A"])])])
      ⟨chat0, .str "", 1⟩ [.commitFail .metadataSite msg] msg h1 h2 hpp
    rw [show metadataLine rawm (.obj [("phones", Json.arr [.str "A"])]) =
      (⟨rawm, some (.obj [("type", Json.str "metadata"),
        ("metadata", Json.obj [("phones", Json.arr [.str "A"])])])⟩ : InLine) from rfl]
    rw [hq, hse]
    simp
  have hpl2 := processLine_content (failFirst msg)
    ⟨{ chat0 with response := .str (errNote msg) }, .str "", 2⟩ rawc c "" h3 h4 hc rfl
  simp only [streamRun, runLines, hpl1, hpl2]
  rw [finishRun]
  rw [if_pos (by simp [Json.truthy, String.empty_append, hc])]
  simp [failFirst, String.empty_append]

/-- C8 counterexample: with a store whose first commit fails, a single valid
`metadata` event produces — after the forwarded frame and the failed write —
a synthesized `error`-typed frame ON THE FORWARDED STREAM.  The persistence
fault is therefore surfaced to the client as a frame, contrary to the
claim. -/
theorem persistence_fault_surfaced_cex :
    (streamRun (failFirst "db down") createChatRecord
      [metadataLine "data: \x7b\"type\": \"metadata\", \"metadata\": \x7b\"phones\": [\"A\"]\x7d\x7d"
        (.obj [("phones", .arr [.str "A"])])]).2 =
      [.fwd ("data: \x7b\"type\": \"metadata\", \"metadata\": \x7b\"phones\": [\"A\"]\x7d\x7d" ++ "\n\n"),
       .commitFail .metadataSite "db down",
       .commitOk .errorNoteSite
         { createChatRecord with
           response := .str "Error occurred during streaming: db down" },
       .fwd (dataFrameStr (errorEventJson "Error processing upstream data: db down"))] ∧
    Action.isFwd
      (.fwd (dataFrameStr (errorEventJson "Error processing upstream data: db down"))) = true :=
  ⟨rfl, rfl⟩

/-- Witness for C8 amended at concrete lines and failure message. -/
theorem persistence_fault_surfaces_and_continues_wit :
    streamRun (failFirst "db down") createChatRecord
        [metadataLine "data: \x7b\"type\": \"metadata\", \"metadata\": \x7b\"phones\": [\"A\"]\x7d\x7d"
           (.obj [("phones", .arr [.str "A"])]),
         contentLine "data: \x7b\"type\": \"content\", \"content\": \"ok\"\x7d" "ok"] =
      ({ chat := { createChatRecord with response := .str "ok" }, acc := .str "ok",
         commits := 3 },
       [.fwd ("data: \x7b\"type\": \"metadata\", \"metadata\": \x7b\"phones\": [\"A\"]\x7d\x7d" ++ "\n\n"),
        .commitFail .metadataSite "db down",
        .commitOk .errorNoteSite { createChatRecord with response := .str (errNote "db down") },
        .fwd (dataFrameStr (errorEventJson ("Error processing upstream data: " ++ "db down"))),
        .fwd ("data: \x7b\"type\": \"content\", \"content\": \"ok\"\x7d" ++ "\n\n"),
        .commitOk .finalSite { createChatRecord with response := .str "ok" }]) :=
  persistence_fault_surfaces_and_continues createChatRecord rfl "db down"
    "data: \x7b\"type\": \"metadata\", \"metadata\": \x7b\"phones\": [\"A\"]\x7d\x7d"
    "data: \x7b\"type\": \"content\", \"content\": \"ok\"\x7d" "ok"
    (by decide) (by decide) (by decide) (by decide) (by decide)

end Relay
